import Mathlib

/-!
Verification of the MLB transcript parser (`src/game.py` token-list
implementation, `src/interpret/parse_game.py` regex implementation) against
its natural-language specification.

The Python code is shallowly embedded: mutable token lists popped from the
front become functions `List String → Except PErr (α × List String)` that
return the value together with the remaining tokens; Python exceptions
(`IndexError` from reading an exhausted list, `ValueError` from failed
conversions or explicit raises) become the `PErr` error type.
-/

namespace MLB

/-- Errors of the token-list parser.  `endOfStream` models Python's
`IndexError` when `tokens[0]`, `tokens[1]` or `tokens.pop(0)` is evaluated on
a too-short list; `unexpectedToken` the explicit `raise ValueError("Expected
token X, got Y")` paths; `badValue` a failed conversion (`int(...)` or an
enum lookup `PlayType(...)` / `Position(...)`). -/
inductive PErr where
  | endOfStream : PErr
  | unexpectedToken : String → String → PErr
  | badValue : String → PErr
deriving DecidableEq

/-- Result of a builder: the parsed value and the remaining tokens, or an
error. -/
abbrev PRes (α : Type) := Except PErr (α × List String)

theorem except_bind_ok {ε α β : Type} {x : Except ε α} {f : α → Except ε β}
    {b : β} : (x >>= f) = .ok b ↔ ∃ a, x = .ok a ∧ f a = .ok b := by
  cases x <;> simp [Bind.bind, Except.bind]

theorem except_bind_err {ε α β : Type} {x : Except ε α} {f : α → Except ε β}
    {e : ε} :
    (x >>= f) = .error e ↔ x = .error e ∨ ∃ a, x = .ok a ∧ f a = .error e := by
  cases x <;> simp [Bind.bind, Except.bind]

/-- `tokens.pop(0)`: the front token and the remainder, or `IndexError`. -/
def popTok : List String → PRes String
  | [] => .error .endOfStream
  | t :: ts => .ok (t, ts)

/-- `" ".join(l)` -/
def joinSpace : List String → String
  | [] => ""
  | [s] => s
  | s :: rest => s ++ " " ++ joinSpace rest

/-- Numeric value of a digit run. -/
def digitsVal (cs : List Char) : Nat :=
  cs.foldl (fun a c => 10 * a + (c.toNat - 48)) 0

/-- Python's `int(s)` on a separator-free token: an optional sign followed by
at least one decimal digit; anything else raises `ValueError` (`none`). -/
def pyInt? (s : String) : Option Int :=
  match s.data with
  | [] => none
  | c :: rest =>
      if c = '+' then
        if rest ≠ [] ∧ rest.all Char.isDigit then some (digitsVal rest) else none
      else if c = '-' then
        if rest ≠ [] ∧ rest.all Char.isDigit then some (-(digitsVal rest : Int))
        else none
      else if (c :: rest).all Char.isDigit then some (digitsVal (c :: rest))
      else none

/-- Truthiness of `re.match(r"\d+", s)`: the token starts with a decimal
digit. -/
def startsWithDigit (s : String) : Bool :=
  match s.data with
  | [] => false
  | c :: _ => c.isDigit

/-- `text.replace(" ", "_").upper()` as used by `PlayType.from_text`. -/
def normalizePlayText (s : String) : String :=
  String.mk (s.data.map (fun c => if c = ' ' then '_' else c.toUpper))

/-- `src/game.py` `Movement` dataclass. -/
structure Movement where
  runner : String
  start_base : Option Int
  end_base : Option Int
  is_out : Bool
deriving DecidableEq

/-- The repeated source idiom `4 if token == "home" else int(token)` used for
every base token (movement start/end, `[BASE]` slot). -/
def parseBaseTok (t : String) : Except PErr Int :=
  if t = "home" then .ok 4
  else
    match pyInt? t with
    | some n => .ok n
    | none => .error (.badValue t)

/-- The name scan of `Movement.from_tokens`:
`while tokens[1] != "->": name_tokens.append(tokens.pop(0))`.
Reading `tokens[1]` of a list with fewer than two elements raises
`IndexError`. -/
def movementNameScan : List String → PRes (List String)
  | [] => .error .endOfStream
  | [_] => .error .endOfStream
  | t0 :: t1 :: rest =>
      if t1 = "->" then .ok ([], t0 :: t1 :: rest)
      else
        match movementNameScan (t1 :: rest) with
        | .error e => .error e
        | .ok (nm, r) => .ok (t0 :: nm, r)

/-- `Movement.from_tokens` of `src/game.py`. -/
def Movement.from_tokens (tokens : List String) :
    Except PErr (Movement × List String) := do
  let (nameToks, tokens) ← movementNameScan tokens
  let runner := joinSpace nameToks
  let (sTok, tokens) ← popTok tokens
  let startBase ← parseBaseTok sTok
  let (_arrow, tokens) ← popTok tokens
  let (eTok, tokens) ← popTok tokens
  let endBase ← parseBaseTok eTok
  match tokens with
  | [] => .error .endOfStream
  | t :: rest =>
    if t = "[out]" then .ok (⟨runner, some startBase, some endBase, true⟩, rest)
    else .ok (⟨runner, some startBase, some endBase, false⟩, t :: rest)

theorem movementNameScan_ok {ts : List String} :
    ∀ {nm r : List String}, movementNameScan ts = .ok (nm, r) →
      ts = nm ++ r ∧ ∃ a b, r = a :: "->" :: b := by
  induction ts with
  | nil => intro nm r h; simp [movementNameScan] at h
  | cons t0 rest ih =>
      intro nm r h
      cases rest with
      | nil => simp [movementNameScan] at h
      | cons t1 rest' =>
        rw [movementNameScan] at h
        split at h
        · rename_i harrow
          simp only [Except.ok.injEq, Prod.mk.injEq] at h
          obtain ⟨h1, h2⟩ := h
          subst h1; subst h2
          subst harrow
          exact ⟨by simp, t0, rest', rfl⟩
        · revert h
          match hrec : movementNameScan (t1 :: rest') with
          | .error e => intro h; simp at h
          | .ok (nm', r') =>
              intro h
              simp only [Except.ok.injEq, Prod.mk.injEq] at h
              obtain ⟨h1, h2⟩ := h
              subst h2
              obtain ⟨hap, a, b, hr⟩ := ih hrec
              refine ⟨?_, a, b, hr⟩
              simp [← h1, hap]

/-- Structure of a successful `Movement.from_tokens`: the input splits into
the runner-name tokens, the start base, the literal `->`, the end base, then
`[out]` exactly when `is_out` was set, then the unconsumed rest; when no
`[out]` marker follows, the next token was inspected and differs from
`[out]`. -/
theorem Movement.from_tokens_shape {ts : List String} {m : Movement}
    {rest : List String} (h : Movement.from_tokens ts = .ok (m, rest)) :
    ∃ nm sTok eTok sb eb,
      ts = nm ++ sTok :: "->" :: eTok ::
        (if m.is_out then "[out]" :: rest else rest) ∧
      m.runner = joinSpace nm ∧
      parseBaseTok sTok = .ok sb ∧ m.start_base = some sb ∧
      parseBaseTok eTok = .ok eb ∧ m.end_base = some eb ∧
      (m.is_out = false → ∃ t ts', rest = t :: ts' ∧ t ≠ "[out]") ∧
      movementNameScan ts = .ok (nm, sTok :: "->" :: eTok ::
        (if m.is_out then "[out]" :: rest else rest)) := by
  rw [Movement.from_tokens] at h
  rw [except_bind_ok] at h
  obtain ⟨⟨nm, ts1⟩, hscan, h⟩ := h
  obtain ⟨hap, a, b, hr⟩ := movementNameScan_ok hscan
  try simp only at h
  rw [except_bind_ok] at h
  obtain ⟨⟨sTok, ts2⟩, hpop, h⟩ := h
  subst hr
  simp only [popTok, Except.ok.injEq, Prod.mk.injEq] at hpop
  obtain ⟨hp1, hp2⟩ := hpop
  subst hp1; subst hp2
  try simp only at h
  rw [except_bind_ok] at h
  obtain ⟨sb, hsb, h⟩ := h
  try simp only at h
  rw [except_bind_ok] at h
  obtain ⟨⟨ar, ts3⟩, hpop2, h⟩ := h
  simp only [popTok, Except.ok.injEq, Prod.mk.injEq] at hpop2
  obtain ⟨hq1, hq2⟩ := hpop2
  subst hq1; subst hq2
  try simp only at h
  rw [except_bind_ok] at h
  obtain ⟨⟨eTok, ts4⟩, hpop3, h⟩ := h
  revert hpop3
  match b with
  | [] => intro hpop3; simp [popTok] at hpop3
  | eTok' :: ts4' =>
      intro hpop3
      simp only [popTok, Except.ok.injEq, Prod.mk.injEq] at hpop3
      obtain ⟨hw1, hw2⟩ := hpop3
      subst hw1; subst hw2
      try simp only at h
      rw [except_bind_ok] at h
      obtain ⟨eb, heb, h⟩ := h
      try simp only at h
      revert h
      match ts4' with
      | [] => intro h; simp at h
      | t :: ts5 =>
          intro h
          try simp only at h
          split at h
          · rename_i hout
            simp only [Except.ok.injEq, Prod.mk.injEq] at h
            obtain ⟨hm, hrest⟩ := h
            subst hm; subst hrest; subst hout
            exact ⟨nm, a, eTok', sb, eb, by simpa using hap, rfl, hsb, rfl,
              heb, rfl, by intro hc; simp at hc, by simpa using hscan⟩
          · rename_i hout
            simp only [Except.ok.injEq, Prod.mk.injEq] at h
            obtain ⟨hm, hrest⟩ := h
            subst hm; subst hrest
            exact ⟨nm, a, eTok', sb, eb, by simpa using hap, rfl, hsb, rfl,
              heb, rfl, fun _ => ⟨t, ts5, rfl, hout⟩, by simpa using hscan⟩

theorem movement_consumes {ts : List String} {m : Movement}
    {rest : List String} (h : Movement.from_tokens ts = .ok (m, rest)) :
    rest.length < ts.length := by
  obtain ⟨nm, sTok, eTok, _, _, hap, -⟩ := Movement.from_tokens_shape h
  subst hap
  cases hmo : m.is_out <;> simp [hmo] <;> omega

/-- The `PlayType` enumeration of `src/game.py`. -/
inductive PlayType where
  | GROUNDOUT | BUNT_GROUNDOUT | STRIKEOUT | LINEOUT | BUNT_LINEOUT
  | FLYOUT | POP_OUT | BUNT_POP_OUT | FORCEOUT | FIELDERS_CHOICE_OUT
  | DOUBLE_PLAY | TRIPLE_PLAY | RUNNER_DOUBLE_PLAY | RUNNER_TRIPLE_PLAY
  | GROUNDED_INTO_DOUBLE_PLAY | STRIKEOUT_DOUBLE_PLAY | PICKOFF
  | PICKOFF_ERROR | CAUGHT_STEALING | PICKOFF_CAUGHT_STEALING | WILD_PITCH
  | RUNNER_OUT | FIELD_OUT | BALK | PASSED_BALL | ERROR
  | SINGLE | DOUBLE | TRIPLE | HOME_RUN | WALK | INTENT_WALK | HIT_BY_PITCH
  | FIELDERS_CHOICE | CATCHER_INTERFERENCE | STOLEN_BASE
  | SAC_FLY | SAC_FLY_DOUBLE_PLAY | SAC_BUNT | SAC_BUNT_DOUBLE_PLAY
  | FIELD_ERROR | GAME_ADVISORY
deriving DecidableEq

/-- The string value of each `PlayType` member. -/
def PlayType.value : PlayType → String
  | .GROUNDOUT => "GROUNDOUT"
  | .BUNT_GROUNDOUT => "BUNT_GROUNDOUT"
  | .STRIKEOUT => "STRIKEOUT"
  | .LINEOUT => "LINEOUT"
  | .BUNT_LINEOUT => "BUNT_LINEOUT"
  | .FLYOUT => "FLYOUT"
  | .POP_OUT => "POP_OUT"
  | .BUNT_POP_OUT => "BUNT_POP_OUT"
  | .FORCEOUT => "FORCEOUT"
  | .FIELDERS_CHOICE_OUT => "FIELDERS_CHOICE_OUT"
  | .DOUBLE_PLAY => "DOUBLE_PLAY"
  | .TRIPLE_PLAY => "TRIPLE_PLAY"
  | .RUNNER_DOUBLE_PLAY => "RUNNER_DOUBLE_PLAY"
  | .RUNNER_TRIPLE_PLAY => "RUNNER_TRIPLE_PLAY"
  | .GROUNDED_INTO_DOUBLE_PLAY => "GROUNDED_INTO_DOUBLE_PLAY"
  | .STRIKEOUT_DOUBLE_PLAY => "STRIKEOUT_DOUBLE_PLAY"
  | .PICKOFF => "PICKOFF"
  | .PICKOFF_ERROR => "PICKOFF_ERROR"
  | .CAUGHT_STEALING => "CAUGHT_STEALING"
  | .PICKOFF_CAUGHT_STEALING => "PICKOFF_CAUGHT_STEALING"
  | .WILD_PITCH => "WILD_PITCH"
  | .RUNNER_OUT => "RUNNER_OUT"
  | .FIELD_OUT => "FIELD_OUT"
  | .BALK => "BALK"
  | .PASSED_BALL => "PASSED_BALL"
  | .ERROR => "ERROR"
  | .SINGLE => "SINGLE"
  | .DOUBLE => "DOUBLE"
  | .TRIPLE => "TRIPLE"
  | .HOME_RUN => "HOME_RUN"
  | .WALK => "WALK"
  | .INTENT_WALK => "INTENT_WALK"
  | .HIT_BY_PITCH => "HIT_BY_PITCH"
  | .FIELDERS_CHOICE => "FIELDERS_CHOICE"
  | .CATCHER_INTERFERENCE => "CATCHER_INTERFERENCE"
  | .STOLEN_BASE => "STOLEN_BASE"
  | .SAC_FLY => "SAC_FLY"
  | .SAC_FLY_DOUBLE_PLAY => "SAC_FLY_DOUBLE_PLAY"
  | .SAC_BUNT => "SAC_BUNT"
  | .SAC_BUNT_DOUBLE_PLAY => "SAC_BUNT_DOUBLE_PLAY"
  | .FIELD_ERROR => "FIELD_ERROR"
  | .GAME_ADVISORY => "GAME_ADVISORY"

/-- All members of the `PlayType` enumeration, in declaration order. -/
def ALL_PLAY_TYPES : List PlayType :=
  [.GROUNDOUT, .BUNT_GROUNDOUT, .STRIKEOUT, .LINEOUT, .BUNT_LINEOUT,
   .FLYOUT, .POP_OUT, .BUNT_POP_OUT, .FORCEOUT, .FIELDERS_CHOICE_OUT,
   .DOUBLE_PLAY, .TRIPLE_PLAY, .RUNNER_DOUBLE_PLAY, .RUNNER_TRIPLE_PLAY,
   .GROUNDED_INTO_DOUBLE_PLAY, .STRIKEOUT_DOUBLE_PLAY, .PICKOFF,
   .PICKOFF_ERROR, .CAUGHT_STEALING, .PICKOFF_CAUGHT_STEALING, .WILD_PITCH,
   .RUNNER_OUT, .FIELD_OUT, .BALK, .PASSED_BALL, .ERROR,
   .SINGLE, .DOUBLE, .TRIPLE, .HOME_RUN, .WALK, .INTENT_WALK, .HIT_BY_PITCH,
   .FIELDERS_CHOICE, .CATCHER_INTERFERENCE, .STOLEN_BASE,
   .SAC_FLY, .SAC_FLY_DOUBLE_PLAY, .SAC_BUNT, .SAC_BUNT_DOUBLE_PLAY,
   .FIELD_ERROR, .GAME_ADVISORY]

/-- `PlayType.from_text`: `PlayType(text.replace(" ", "_").upper())`; the
enum constructor raises `ValueError` (here `none`) when no member has the
normalized value. -/
def PlayType.from_text (text : String) : Option PlayType :=
  ALL_PLAY_TYPES.find? (fun pt => pt.value = normalizePlayText text)

/-- `ALL_PLAY_CONTENT_TOKENS` of `src/game.py`. -/
def ALL_PLAY_CONTENT_TOKENS : List String :=
  ["[BATTER]", "[PITCHER]", "[FIELDERS]", "[CATCHER]", "[RUNNER]",
   "[SCORING_RUNNER]", "[BASE]", "[MOVEMENTS]"]

/-- `src/game.py` `PlayContents` dataclass; every field defaults to `None`. -/
structure PlayContents where
  batter : Option String := none
  pitcher : Option String := none
  fielders : Option (List String) := none
  catcher : Option String := none
  runner : Option String := none
  scoring_runner : Option String := none
  base : Option Int := none
  movements : Option (List Movement) := none
deriving DecidableEq

/-- `while tokens[0] != "[MOVEMENTS]": context_tokens.append(tokens.pop(0))` -/
def collectUntilMovements : List String → PRes (List String)
  | [] => .error .endOfStream
  | t :: ts =>
      if t = "[MOVEMENTS]" then .ok ([], t :: ts)
      else
        match collectUntilMovements ts with
        | .error e => .error e
        | .ok (c, r) => .ok (t :: c, r)

/-- The name scan used for every name-valued slot of
`PlayContents.from_tokens`: `while context_tokens and context_tokens[0] not
in ALL_PLAY_CONTENT_TOKENS and context_tokens[0] != "[MOVEMENTS]"`.
It operates on the already-extracted local `context_tokens` list, so running
out of tokens stops the scan instead of raising. -/
def contentsNameScan : List String → List String × List String
  | [] => ([], [])
  | t :: ts =>
      if t ∈ ALL_PLAY_CONTENT_TOKENS ∨ t = "[MOVEMENTS]" then ([], t :: ts)
      else
        let (nm, r) := contentsNameScan ts
        (t :: nm, r)

theorem contentsNameScan_len (l : List String) :
    (contentsNameScan l).2.length ≤ l.length := by
  induction l with
  | nil => simp [contentsNameScan]
  | cons t ts ih =>
      simp only [contentsNameScan]
      split
      · simp
      · simpa using Nat.le_succ_of_le ih

/-- The `while context_tokens:` match loop of `PlayContents.from_tokens`.
A token matching no `case` (there is no default case) is silently dropped. -/
def contentLoop : List String → PlayContents → Except PErr PlayContents
  | [], c => .ok c
  | t :: ts, c =>
      if t = "[BATTER]" then
        contentLoop (contentsNameScan ts).2
          { c with batter := some (joinSpace (contentsNameScan ts).1) }
      else if t = "[PITCHER]" then
        contentLoop (contentsNameScan ts).2
          { c with pitcher := some (joinSpace (contentsNameScan ts).1) }
      else if t = "[FIELDERS]" then
        contentLoop (contentsNameScan ts).2
          { c with fielders := some [joinSpace (contentsNameScan ts).1] }
      else if t = "[CATCHER]" then
        contentLoop (contentsNameScan ts).2
          { c with catcher := some (joinSpace (contentsNameScan ts).1) }
      else if t = "[RUNNER]" then
        contentLoop (contentsNameScan ts).2
          { c with runner := some (joinSpace (contentsNameScan ts).1) }
      else if t = "[SCORING_RUNNER]" then
        contentLoop (contentsNameScan ts).2
          { c with scoring_runner := some (joinSpace (contentsNameScan ts).1) }
      else if t = "[BASE]" then
        match ts with
        | [] => .error .endOfStream
        | b :: r =>
          match parseBaseTok b with
          | .error e => .error e
          | .ok n => contentLoop r { c with base := some n }
      else contentLoop ts c
termination_by l _ => l.length
decreasing_by
  all_goals simp
  all_goals first
    | (have hcn := contentsNameScan_len ts; omega)
    | omega

/-- The movements loop of `PlayContents.from_tokens`:
`while tokens[0] not in ["[PLAY]", "[GAME_END]"]: Movement.from_tokens(...)`. -/
def movementsLoop (tokens : List String) : PRes (List Movement) :=
  match tokens with
  | [] => .error .endOfStream
  | t :: ts =>
      if t = "[PLAY]" ∨ t = "[GAME_END]" then .ok ([], t :: ts)
      else
        match h : Movement.from_tokens (t :: ts) with
        | .error e => .error e
        | .ok (m, rest) =>
          match movementsLoop rest with
          | .error e => .error e
          | .ok (ms, r) => .ok (m :: ms, r)
termination_by tokens.length
decreasing_by
  exact movement_consumes h

/-- `PlayContents.from_tokens` of `src/game.py`. -/
def PlayContents.from_tokens (tokens : List String) :
    Except PErr (PlayContents × List String) := do
  let (ctx, tokens) ← collectUntilMovements tokens
  let contents ← contentLoop ctx {}
  let (mt, tokens) ← popTok tokens
  if mt ≠ "[MOVEMENTS]" then .error (.unexpectedToken "[MOVEMENTS]" mt)
  else
    match movementsLoop tokens with
    | .error e => .error e
    | .ok (ms, tokens) => .ok ({ contents with movements := some ms }, tokens)

/-- `src/game.py` `Play` dataclass. -/
structure Play where
  play_type : PlayType
  contents : PlayContents
deriving DecidableEq

/-- The play-type scan of `Play.from_tokens`:
`while tokens[0] not in ALL_PLAY_CONTENT_TOKENS and tokens[0] != "[GAME_END]"`. -/
def playTypeScan : List String → PRes (List String)
  | [] => .error .endOfStream
  | t :: ts =>
      if t ∈ ALL_PLAY_CONTENT_TOKENS ∨ t = "[GAME_END]" then .ok ([], t :: ts)
      else
        match playTypeScan ts with
        | .error e => .error e
        | .ok (c, r) => .ok (t :: c, r)

/-- `Play.from_tokens` of `src/game.py`. -/
def Play.from_tokens (tokens : List String) :
    Except PErr (Play × List String) := do
  let (pt, tokens) ← popTok tokens
  if pt ≠ "[PLAY]" then .error (.unexpectedToken "[PLAY]" pt)
  else
    let (tyToks, tokens) ← playTypeScan tokens
    match PlayType.from_text (joinSpace tyToks) with
    | none => .error (.badValue (joinSpace tyToks))
    | some ty =>
      if ty = PlayType.GAME_ADVISORY then .ok (⟨ty, {}⟩, tokens)
      else
        match PlayContents.from_tokens tokens with
        | .error e => .error e
        | .ok (c, tokens) => .ok (⟨ty, c⟩, tokens)

/-- The `Position` enumeration of `src/game.py`. -/
inductive Position where
  | PITCHER | CATCHER | FIRST_BASE | SECOND_BASE | THIRD_BASE | SHORTSTOP
  | LEFT_FIELD | CENTER_FIELD | RIGHT_FIELD | DESIGNATED_HITTER
  | PINCH_HITTER | PINCH_RUNNER | TWO_WAY_PLAYER | OUTFIELD | INFIELD
  | UTILITY | RELIEF_PITCHER | STARTING_PITCHER
deriving DecidableEq

/-- The string value of each `Position` member. -/
def Position.value : Position → String
  | .PITCHER => "PITCHER"
  | .CATCHER => "CATCHER"
  | .FIRST_BASE => "FIRST_BASE"
  | .SECOND_BASE => "SECOND_BASE"
  | .THIRD_BASE => "THIRD_BASE"
  | .SHORTSTOP => "SHORTSTOP"
  | .LEFT_FIELD => "LEFT_FIELD"
  | .CENTER_FIELD => "CENTER_FIELD"
  | .RIGHT_FIELD => "RIGHT_FIELD"
  | .DESIGNATED_HITTER => "DESIGNATED_HITTER"
  | .PINCH_HITTER => "PINCH_HITTER"
  | .PINCH_RUNNER => "PINCH_RUNNER"
  | .TWO_WAY_PLAYER => "TWO_WAY_PLAYER"
  | .OUTFIELD => "OUTFIELD"
  | .INFIELD => "INFIELD"
  | .UTILITY => "UTILITY"
  | .RELIEF_PITCHER => "RELIEF_PITCHER"
  | .STARTING_PITCHER => "STARTING_PITCHER"

/-- All members of the `Position` enumeration, in declaration order. -/
def ALL_POSITION_MEMBERS : List Position :=
  [.PITCHER, .CATCHER, .FIRST_BASE, .SECOND_BASE, .THIRD_BASE, .SHORTSTOP,
   .LEFT_FIELD, .CENTER_FIELD, .RIGHT_FIELD, .DESIGNATED_HITTER,
   .PINCH_HITTER, .PINCH_RUNNER, .TWO_WAY_PLAYER, .OUTFIELD, .INFIELD,
   .UTILITY, .RELIEF_PITCHER, .STARTING_PITCHER]

/-- `ALL_POSITIONS` of `src/game.py`: the value of every position. -/
def ALL_POSITIONS : List String := ALL_POSITION_MEMBERS.map Position.value

/-- `ALL_POSITION_TOKENS` of `src/game.py`: every value wrapped in
brackets. -/
def ALL_POSITION_TOKENS : List String :=
  ALL_POSITIONS.map (fun p => "[" ++ p ++ "]")

/-- `Position(value)` enum lookup: `ValueError` (`none`) when absent. -/
def Position.fromValue (v : String) : Option Position :=
  ALL_POSITION_MEMBERS.find? (fun p => p.value = v)

/-- `position_token[1:-1]`: strip the first and last character. -/
def stripBrackets (s : String) : String :=
  String.mk (s.data.drop 1).dropLast

/-- `src/game.py` `Player` dataclass. -/
structure Player where
  name : String
  position : Position
deriving DecidableEq

/-- The name scan of `Player.from_tokens`:
`while tokens[0] not in ALL_POSITION_TOKENS and tokens[0] != "[TEAM]" and
tokens[0] != "[GAME_START]"`. -/
def playerNameScan : List String → PRes (List String)
  | [] => .error .endOfStream
  | t :: ts =>
      if t ∈ ALL_POSITION_TOKENS ∨ t = "[TEAM]" ∨ t = "[GAME_START]" then
        .ok ([], t :: ts)
      else
        match playerNameScan ts with
        | .error e => .error e
        | .ok (c, r) => .ok (t :: c, r)

/-- `Player.from_tokens` of `src/game.py`. -/
def Player.from_tokens (tokens : List String) :
    Except PErr (Player × List String) := do
  let (positionToken, tokens) ← popTok tokens
  if positionToken ∉ ALL_POSITION_TOKENS then
    .error (.unexpectedToken "position token" positionToken)
  else
    match Position.fromValue (stripBrackets positionToken) with
    | none => .error (.badValue positionToken)
    | some position =>
      let (nameToks, tokens) ← playerNameScan tokens
      .ok (⟨joinSpace nameToks, position⟩, tokens)

theorem playerNameScan_len {ts : List String} :
    ∀ {nm r : List String}, playerNameScan ts = .ok (nm, r) →
      r.length ≤ ts.length := by
  induction ts with
  | nil => intro nm r h; simp [playerNameScan] at h
  | cons t rest ih =>
      intro nm r h
      rw [playerNameScan] at h
      split at h
      · simp only [Except.ok.injEq, Prod.mk.injEq] at h
        obtain ⟨-, h2⟩ := h
        subst h2; simp
      · revert h
        match hrec : playerNameScan rest with
        | .error e => intro h; simp at h
        | .ok (nm', r') =>
            intro h
            simp only [Except.ok.injEq, Prod.mk.injEq] at h
            obtain ⟨-, h2⟩ := h
            subst h2
            exact Nat.le_succ_of_le (ih hrec)

theorem player_consumes {ts : List String} {p : Player}
    {rest : List String} (h : Player.from_tokens ts = .ok (p, rest)) :
    rest.length < ts.length := by
  rw [Player.from_tokens] at h
  rw [except_bind_ok] at h
  obtain ⟨⟨posTok, ts1⟩, hpop, h⟩ := h
  revert hpop
  match ts with
  | [] => intro hpop; simp [popTok] at hpop
  | t0 :: ts0 =>
      intro hpop
      simp only [popTok, Except.ok.injEq, Prod.mk.injEq] at hpop
      obtain ⟨hp1, hp2⟩ := hpop
      subst hp1; subst hp2
      try simp only at h
      split at h
      · simp at h
      · revert h
        match hfv : Position.fromValue (stripBrackets t0) with
        | none => intro h; simp at h
        | some position =>
            intro h
            try simp only at h
            rw [except_bind_ok] at h
            obtain ⟨⟨nm, r⟩, hscan, h⟩ := h
            try simp only at h
            simp only [Except.ok.injEq, Prod.mk.injEq] at h
            obtain ⟨-, h2⟩ := h
            subst h2
            exact Nat.lt_succ_of_le (playerNameScan_len hscan)

/-- `src/game.py` `Team` dataclass. -/
structure Team where
  id : Int
  players : List Player
deriving DecidableEq

/-- The players loop of `Team.from_tokens`:
`while tokens[0] != "[TEAM]" and tokens[0] != "[GAME_START]"`. -/
def playersLoop (tokens : List String) : PRes (List Player) :=
  match tokens with
  | [] => .error .endOfStream
  | t :: ts =>
      if t = "[TEAM]" ∨ t = "[GAME_START]" then .ok ([], t :: ts)
      else
        match h : Player.from_tokens (t :: ts) with
        | .error e => .error e
        | .ok (p, rest) =>
          match playersLoop rest with
          | .error e => .error e
          | .ok (ps, r) => .ok (p :: ps, r)
termination_by tokens.length
decreasing_by
  exact player_consumes h

/-- `Team.from_tokens` of `src/game.py`. -/
def Team.from_tokens (tokens : List String) :
    Except PErr (Team × List String) := do
  let (teamToken, tokens) ← popTok tokens
  if teamToken ≠ "[TEAM]" then .error (.unexpectedToken "[TEAM]" teamToken)
  else
    let (idTok, tokens) ← popTok tokens
    match pyInt? idTok with
    | none => .error (.badValue idTok)
    | some teamId =>
      match playersLoop tokens with
      | .error e => .error e
      | .ok (players, tokens) => .ok (⟨teamId, players⟩, tokens)

/-- `src/game.py` `Weather` dataclass. -/
structure Weather where
  condition : String
  temperature : Int
  wind_speed : Int
deriving DecidableEq

/-- The condition scan of `Weather.from_tokens`:
`while not re.match(r"\d+", tokens[0]): condition_tokens.append(tokens.pop(0))`.
The scan stops exactly at the first token starting with a decimal digit;
`home` does not match `\d+` and is therefore accumulated like any other
condition token. -/
def weatherCondScan : List String → PRes (List String)
  | [] => .error .endOfStream
  | t :: ts =>
      if startsWithDigit t then .ok ([], t :: ts)
      else
        match weatherCondScan ts with
        | .error e => .error e
        | .ok (c, r) => .ok (t :: c, r)

/-- `Weather.from_tokens` of `src/game.py`. -/
def Weather.from_tokens (tokens : List String) :
    Except PErr (Weather × List String) := do
  let (weatherToken, tokens) ← popTok tokens
  if weatherToken ≠ "[WEATHER]" then
    .error (.unexpectedToken "[WEATHER]" weatherToken)
  else
    let (condToks, tokens) ← weatherCondScan tokens
    let (tTok, tokens) ← popTok tokens
    match pyInt? tTok with
    | none => .error (.badValue tTok)
    | some temperature =>
      let (wTok, tokens) ← popTok tokens
      match pyInt? wTok with
      | none => .error (.badValue wTok)
      | some windSpeed =>
        .ok (⟨joinSpace condToks, temperature, windSpeed⟩, tokens)

/-- `src/game.py` `GameContext` dataclass. -/
structure GameContext where
  game_pk : Int
  date : String
  venue : String
  weather : Weather
  home_team : Team
  away_team : Team
deriving DecidableEq

/-- The venue scan of `GameContext.from_tokens`:
`while tokens[0] != "[WEATHER]"`. -/
def venueScan : List String → PRes (List String)
  | [] => .error .endOfStream
  | t :: ts =>
      if t = "[WEATHER]" then .ok ([], t :: ts)
      else
        match venueScan ts with
        | .error e => .error e
        | .ok (c, r) => .ok (t :: c, r)

/-- `GameContext.from_tokens` of `src/game.py`. -/
def GameContext.from_tokens (tokens : List String) :
    Except PErr (GameContext × List String) := do
  let (gameToken, tokens) ← popTok tokens
  if gameToken ≠ "[GAME]" then .error (.unexpectedToken "[GAME]" gameToken)
  else
    let (pkTok, tokens) ← popTok tokens
    match pyInt? pkTok with
    | none => .error (.badValue pkTok)
    | some gamePk =>
      let (dateToken, tokens) ← popTok tokens
      if dateToken ≠ "[DATE]" then .error (.unexpectedToken "[DATE]" dateToken)
      else
        let (date, tokens) ← popTok tokens
        let (venueToken, tokens) ← popTok tokens
        if venueToken ≠ "[VENUE]" then
          .error (.unexpectedToken "[VENUE]" venueToken)
        else
          let (venueToks, tokens) ← venueScan tokens
          let (weather, tokens) ← Weather.from_tokens tokens
          let (homeTeam, tokens) ← Team.from_tokens tokens
          let (awayTeam, tokens) ← Team.from_tokens tokens
          .ok (⟨gamePk, date, joinSpace venueToks, weather, homeTeam,
            awayTeam⟩, tokens)

/-- `src/game.py` `Game` dataclass. -/
structure Game where
  context : GameContext
  plays : List Play
deriving DecidableEq

theorem playTypeScan_ok {ts : List String} :
    ∀ {c r : List String}, playTypeScan ts = .ok (c, r) → ts = c ++ r := by
  induction ts with
  | nil => intro c r h; simp [playTypeScan] at h
  | cons t rest ih =>
      intro c r h
      rw [playTypeScan] at h
      split at h
      · simp only [Except.ok.injEq, Prod.mk.injEq] at h
        obtain ⟨h1, h2⟩ := h
        subst h1; subst h2; simp
      · revert h
        match hrec : playTypeScan rest with
        | .error e => intro h; simp at h
        | .ok (c', r') =>
            intro h
            simp only [Except.ok.injEq, Prod.mk.injEq] at h
            obtain ⟨h1, h2⟩ := h
            subst h2
            simp [← h1, ih hrec]

theorem collectUntilMovements_ok {ts : List String} :
    ∀ {c r : List String}, collectUntilMovements ts = .ok (c, r) →
      ts = c ++ r := by
  induction ts with
  | nil => intro c r h; simp [collectUntilMovements] at h
  | cons t rest ih =>
      intro c r h
      rw [collectUntilMovements] at h
      split at h
      · simp only [Except.ok.injEq, Prod.mk.injEq] at h
        obtain ⟨h1, h2⟩ := h
        subst h1; subst h2; simp
      · revert h
        match hrec : collectUntilMovements rest with
        | .error e => intro h; simp at h
        | .ok (c', r') =>
            intro h
            simp only [Except.ok.injEq, Prod.mk.injEq] at h
            obtain ⟨h1, h2⟩ := h
            subst h2
            simp [← h1, ih hrec]

theorem movementsLoopLenAux (n : Nat) :
    ∀ (ts : List String) {ms : List Movement} {r : List String},
      ts.length ≤ n → movementsLoop ts = .ok (ms, r) →
      r.length ≤ ts.length := by
  induction n with
  | zero =>
      intro ts ms r hlen h
      match ts with
      | [] => simp [movementsLoop] at h
      | t :: ts' => simp at hlen
  | succ n ih =>
      intro ts ms r hlen h
      match ts with
      | [] => simp [movementsLoop] at h
      | t :: ts' =>
          rw [movementsLoop.eq_def] at h
          try simp only at h
          split at h
          · simp only [Except.ok.injEq, Prod.mk.injEq] at h
            obtain ⟨-, h2⟩ := h
            subst h2; simp
          · cases hmv : Movement.from_tokens (t :: ts') with
            | error e => rw [hmv] at h; simp at h
            | ok p =>
                obtain ⟨m, rest⟩ := p
                rw [hmv] at h
                try simp only at h
                cases hml : movementsLoop rest with
                | error e => rw [hml] at h; simp at h
                | ok q =>
                    obtain ⟨ms', r'⟩ := q
                    rw [hml] at h
                    try simp only at h
                    simp only [Except.ok.injEq, Prod.mk.injEq] at h
                    obtain ⟨-, h2⟩ := h
                    subst h2
                    have hc := movement_consumes hmv
                    have hr := ih rest (by simp at hlen hc ⊢; omega) hml
                    simp at hc ⊢
                    omega

theorem movementsLoop_len {ts : List String} {ms : List Movement}
    {r : List String} (h : movementsLoop ts = .ok (ms, r)) :
    r.length ≤ ts.length :=
  movementsLoopLenAux ts.length ts le_rfl h

theorem PlayContents.from_tokens_len {ts : List String} {c : PlayContents}
    {rest : List String} (h : PlayContents.from_tokens ts = .ok (c, rest)) :
    rest.length ≤ ts.length := by
  rw [PlayContents.from_tokens] at h
  rw [except_bind_ok] at h
  obtain ⟨⟨ctx, ts1⟩, hcol, h⟩ := h
  have h1 : ts = ctx ++ ts1 := collectUntilMovements_ok hcol
  try simp only at h
  rw [except_bind_ok] at h
  obtain ⟨contents, hcl, h⟩ := h
  try simp only at h
  rw [except_bind_ok] at h
  obtain ⟨⟨mt, ts2⟩, hpop, h⟩ := h
  cases ts1 with
  | nil => simp [popTok] at hpop
  | cons a b =>
      simp only [popTok, Except.ok.injEq, Prod.mk.injEq] at hpop
      obtain ⟨hp1, hp2⟩ := hpop
      subst hp1; subst hp2
      try simp only at h
      split at h
      · simp at h
      · revert h
        match hml : movementsLoop b with
        | .error e => intro h; simp at h
        | .ok (ms, r') =>
            intro h
            simp only [Except.ok.injEq, Prod.mk.injEq] at h
            obtain ⟨-, h2⟩ := h
            subst h2
            have := movementsLoop_len hml
            subst h1
            simp
            omega

theorem play_consumes {ts : List String} {p : Play}
    {rest : List String} (h : Play.from_tokens ts = .ok (p, rest)) :
    rest.length < ts.length := by
  rw [Play.from_tokens] at h
  rw [except_bind_ok] at h
  obtain ⟨⟨pt, ts0⟩, hpop, h⟩ := h
  cases ts with
  | nil => simp [popTok] at hpop
  | cons t0 tsr =>
      simp only [popTok, Except.ok.injEq, Prod.mk.injEq] at hpop
      obtain ⟨hp1, hp2⟩ := hpop
      subst hp1; subst hp2
      try simp only at h
      split at h
      · simp at h
      · rw [except_bind_ok] at h
        obtain ⟨⟨tyToks, ts1⟩, hscan, h⟩ := h
        have hap := playTypeScan_ok hscan
        try simp only at h
        revert h
        match PlayType.from_text (joinSpace tyToks) with
        | none => intro h; simp at h
        | some ty =>
            intro h
            try simp only at h
            split at h
            · simp only [Except.ok.injEq, Prod.mk.injEq] at h
              obtain ⟨-, h2⟩ := h
              subst h2
              subst hap
              simp
              omega
            · revert h
              match hpc : PlayContents.from_tokens ts1 with
              | .error e => intro h; simp at h
              | .ok (c, ts2) =>
                  intro h
                  simp only [Except.ok.injEq, Prod.mk.injEq] at h
                  obtain ⟨-, h2⟩ := h
                  subst h2
                  have := PlayContents.from_tokens_len hpc
                  subst hap
                  simp
                  omega

/-- The plays loop of `Game.from_tokens`: `while tokens[0] != "[GAME_END]"`.
Note that `[GAME_END]` is never consumed and no check for trailing tokens is
performed: `Game.from_tokens` returns as soon as `[GAME_END]` is the next
token. -/
def playsLoop (tokens : List String) : PRes (List Play) :=
  match tokens with
  | [] => .error .endOfStream
  | t :: ts =>
      if t = "[GAME_END]" then .ok ([], t :: ts)
      else
        match h : Play.from_tokens (t :: ts) with
        | .error e => .error e
        | .ok (p, rest) =>
          match playsLoop rest with
          | .error e => .error e
          | .ok (ps, r) => .ok (p :: ps, r)
termination_by tokens.length
decreasing_by
  exact play_consumes h

/-- `Game.from_tokens` of `src/game.py`. -/
def Game.from_tokens (tokens : List String) :
    Except PErr (Game × List String) := do
  let (context, tokens) ← GameContext.from_tokens tokens
  let (gameStartToken, tokens) ← popTok tokens
  if gameStartToken ≠ "[GAME_START]" then
    .error (.unexpectedToken "[GAME_START]" gameStartToken)
  else
    match playsLoop tokens with
    | .error e => .error e
    | .ok (plays, tokens) => .ok (⟨context, plays⟩, tokens)

/-- Python whitespace characters matched by `\s` (ASCII range). -/
def isSpaceChar (c : Char) : Bool :=
  c = ' ' ∨ c = '\t' ∨ c = '\n' ∨ c = '\r' ∨ c = '\x0b' ∨ c = '\x0c'

/-- A character matched by the split pattern `[\s,]+`. -/
def isSplitChar (c : Char) : Bool :=
  isSpaceChar c ∨ c = ','

mutual

/-- State of `re.split(r"[\s,]+", text)` while accumulating a field. -/
def splitGo : List Char → List Char → List String
  | [], cur => [String.mk cur.reverse]
  | c :: cs, cur =>
      if isSplitChar c then String.mk cur.reverse :: splitRun cs
      else splitGo cs (c :: cur)

/-- State of `re.split(r"[\s,]+", text)` inside a separator run. -/
def splitRun : List Char → List String
  | [] => [""]
  | c :: cs =>
      if isSplitChar c then splitRun cs
      else splitGo cs [c]

end

/-- `re.split(r"[\s,]+", text)`: the fields between maximal runs of
whitespace/comma characters.  The leading field is empty when the text starts
with a separator (or is empty), and the trailing field is empty when it ends
with one — exactly as `re.split` behaves. -/
def pySplitWS (text : String) : List String :=
  splitGo text.data []

/-- `parse_game` of `src/game.py`: split the text on `[\s,]+` and run
`Game.from_tokens` on the resulting token list. -/
def parse_game (text : String) : Except PErr (Game × List String) :=
  Game.from_tokens (pySplitWS text)

theorem ok_bind {ε α β : Type} (a : α) (f : α → Except ε β) :
    (Except.ok a >>= f) = f a := rfl

theorem error_bind {ε α β : Type} (e : ε) (f : α → Except ε β) :
    ((Except.error e : Except ε α) >>= f) = .error e := rfl

/-!  ## Rendering valid transcripts

The spec's §6 grammar is embedded as abstract "spec" records whose `render`
functions emit token sequences, together with validity conditions capturing
the grammar's side constraints (reserved markers never occur inside free
text, base tokens are `1`/`2`/`3`/`home`, integers are digit runs, …).  The
`*_render` lemmas below prove that each builder of `src/game.py` consumes a
rendered entity and produces exactly the corresponding structured value. -/

theorem venueScan_render {v : List String} (r : List String)
    (hv : ∀ t ∈ v, t ≠ "[WEATHER]") :
    venueScan (v ++ "[WEATHER]" :: r) = .ok (v, "[WEATHER]" :: r) := by
  induction v with
  | nil => simp [venueScan]
  | cons t ts ih =>
      rw [List.cons_append, venueScan, if_neg (by simpa using hv t (by simp))]
      rw [ih (fun x hx => hv x (by simp [hx]))]

theorem weatherCondScan_render {c : List String} {tTok : String}
    (r : List String) (hc : ∀ t ∈ c, startsWithDigit t = false)
    (ht : startsWithDigit tTok = true) :
    weatherCondScan (c ++ tTok :: r) = .ok (c, tTok :: r) := by
  induction c with
  | nil => simp [weatherCondScan, ht]
  | cons t ts ih =>
      rw [List.cons_append, weatherCondScan,
        if_neg (by simp [hc t (by simp)])]
      rw [ih (fun x hx => hc x (by simp [hx]))]

theorem playerNameScan_render {nm : List String} {s : String}
    (r : List String)
    (h1 : ∀ t ∈ nm, ¬(t ∈ ALL_POSITION_TOKENS ∨ t = "[TEAM]" ∨ t = "[GAME_START]"))
    (h2 : s ∈ ALL_POSITION_TOKENS ∨ s = "[TEAM]" ∨ s = "[GAME_START]") :
    playerNameScan (nm ++ s :: r) = .ok (nm, s :: r) := by
  induction nm with
  | nil => rw [List.nil_append, playerNameScan, if_pos h2]
  | cons t ts ih =>
      rw [List.cons_append, playerNameScan, if_neg (h1 t (by simp))]
      rw [ih (fun x hx => h1 x (by simp [hx]))]

theorem playTypeScan_render {tyToks : List String} {s : String}
    (r : List String)
    (h1 : ∀ t ∈ tyToks, ¬(t ∈ ALL_PLAY_CONTENT_TOKENS ∨ t = "[GAME_END]"))
    (h2 : s ∈ ALL_PLAY_CONTENT_TOKENS ∨ s = "[GAME_END]") :
    playTypeScan (tyToks ++ s :: r) = .ok (tyToks, s :: r) := by
  induction tyToks with
  | nil => rw [List.nil_append, playTypeScan, if_pos h2]
  | cons t ts ih =>
      rw [List.cons_append, playTypeScan, if_neg (h1 t (by simp))]
      rw [ih (fun x hx => h1 x (by simp [hx]))]

theorem collectUntilMovements_render {ctx : List String} (r : List String)
    (h : ∀ t ∈ ctx, t ≠ "[MOVEMENTS]") :
    collectUntilMovements (ctx ++ "[MOVEMENTS]" :: r) =
      .ok (ctx, "[MOVEMENTS]" :: r) := by
  induction ctx with
  | nil => simp [collectUntilMovements]
  | cons t ts ih =>
      rw [List.cons_append, collectUntilMovements,
        if_neg (by simpa using h t (by simp))]
      rw [ih (fun x hx => h x (by simp [hx]))]

theorem contentsNameScan_render {nm : List String} {r : List String}
    (h1 : ∀ t ∈ nm, ¬(t ∈ ALL_PLAY_CONTENT_TOKENS ∨ t = "[MOVEMENTS]"))
    (h2 : r = [] ∨ ∃ s r', r = s :: r' ∧
      (s ∈ ALL_PLAY_CONTENT_TOKENS ∨ s = "[MOVEMENTS]")) :
    contentsNameScan (nm ++ r) = (nm, r) := by
  induction nm with
  | nil =>
      rw [List.nil_append]
      rcases h2 with h2 | ⟨s, r', rfl, hs⟩
      · subst h2; rw [contentsNameScan]
      · rw [contentsNameScan, if_pos hs]
  | cons t ts ih =>
      rw [List.cons_append, contentsNameScan, if_neg (h1 t (by simp))]
      rw [ih (fun x hx => h1 x (by simp [hx]))]

theorem movementNameScan_render {nm : List String} {s : String}
    (hnm : "->" ∉ nm) (hs : s ≠ "->") (r : List String) :
    movementNameScan (nm ++ s :: "->" :: r) = .ok (nm, s :: "->" :: r) := by
  induction nm with
  | nil => rw [List.nil_append, movementNameScan, if_pos rfl]
  | cons t ts ih =>
      have hrec := ih (fun hx => hnm (by simp [hx]))
      cases ts with
      | nil =>
          rw [List.nil_append] at hrec
          rw [List.cons_append, List.nil_append, movementNameScan,
            if_neg hs, hrec]
      | cons u ts' =>
          have hu : u ≠ "->" := fun hx => hnm (by simp [hx])
          rw [List.cons_append, List.cons_append, movementNameScan,
            if_neg hu]
          rw [List.cons_append] at hrec
          rw [hrec]

/-- A player of the §6 grammar: a position marker and free-text name
tokens. -/
structure PlayerSpec where
  posTok : String
  pos : Position
  nameToks : List String

def PlayerSpec.render (p : PlayerSpec) : List String := p.posTok :: p.nameToks

def PlayerSpec.toPlayer (p : PlayerSpec) : Player := ⟨joinSpace p.nameToks, p.pos⟩

def PlayerSpec.Valid (p : PlayerSpec) : Prop :=
  p.posTok ∈ ALL_POSITION_TOKENS ∧
  Position.fromValue (stripBrackets p.posTok) = some p.pos ∧
  ∀ t ∈ p.nameToks,
    ¬(t ∈ ALL_POSITION_TOKENS ∨ t = "[TEAM]" ∨ t = "[GAME_START]")

theorem Player_render {p : PlayerSpec} (hv : p.Valid) {s : String}
    (r : List String)
    (hs : s ∈ ALL_POSITION_TOKENS ∨ s = "[TEAM]" ∨ s = "[GAME_START]") :
    Player.from_tokens (p.render ++ s :: r) = .ok (p.toPlayer, s :: r) := by
  obtain ⟨h1, h2, h3⟩ := hv
  show Player.from_tokens (p.posTok :: (p.nameToks ++ s :: r)) = _
  rw [Player.from_tokens]
  simp only [popTok, ok_bind]
  rw [if_neg (by simp [h1])]
  rw [h2]
  rw [playerNameScan_render r h3 hs]
  rfl

/-- A team of the §6 grammar. -/
structure TeamSpec where
  idTok : String
  id : Int
  players : List PlayerSpec

def TeamSpec.render (t : TeamSpec) : List String :=
  "[TEAM]" :: t.idTok :: (t.players.map PlayerSpec.render).flatten

def TeamSpec.toTeam (t : TeamSpec) : Team :=
  ⟨t.id, t.players.map PlayerSpec.toPlayer⟩

def TeamSpec.Valid (t : TeamSpec) : Prop :=
  pyInt? t.idTok = some t.id ∧ ∀ p ∈ t.players, p.Valid

theorem playersLoop_render {ps : List PlayerSpec} {s : String}
    (r : List String) (hv : ∀ p ∈ ps, p.Valid)
    (hs : s = "[TEAM]" ∨ s = "[GAME_START]") :
    playersLoop ((ps.map PlayerSpec.render).flatten ++ s :: r) =
      .ok (ps.map PlayerSpec.toPlayer, s :: r) := by
  induction ps with
  | nil =>
      show playersLoop (s :: r) = Except.ok ([], s :: r)
      rw [playersLoop.eq_def]
      simp [hs]
  | cons p ps' ih =>
      have hpv := hv p (by simp)
      have hpos : p.posTok ∈ ALL_POSITION_TOKENS := hpv.1
      have hne1 : p.posTok ≠ "[TEAM]" := by
        intro hx; rw [hx] at hpos; revert hpos; decide
      have hne2 : p.posTok ≠ "[GAME_START]" := by
        intro hx; rw [hx] at hpos; revert hpos; decide
      have hplayer :
          Player.from_tokens
              (p.posTok :: (p.nameToks ++ ((ps'.map PlayerSpec.render).flatten ++ s :: r))) =
            .ok (p.toPlayer, (ps'.map PlayerSpec.render).flatten ++ s :: r) := by
        cases ps' with
        | nil =>
            simpa [PlayerSpec.render] using
              Player_render hpv r (by rcases hs with h | h <;> simp [h])
        | cons q qs' =>
            have hqv := hv q (by simp)
            have := Player_render hpv
              (q.nameToks ++ ((qs'.map PlayerSpec.render).flatten ++ s :: r))
              (Or.inl hqv.1)
            simpa [PlayerSpec.render] using this
      have hL : ((p :: ps').map PlayerSpec.render).flatten ++ s :: r =
          p.posTok :: (p.nameToks ++ ((ps'.map PlayerSpec.render).flatten ++ s :: r)) := by
        simp [PlayerSpec.render]
      rw [hL, playersLoop.eq_def]
      try simp only
      rw [if_neg (by simp [hne1, hne2])]
      rw [hplayer]
      try simp only
      rw [ih (fun q hq => hv q (by simp [hq]))]
      simp

theorem Team_render {t : TeamSpec} (hv : t.Valid) {s : String}
    (r : List String) (hs : s = "[TEAM]" ∨ s = "[GAME_START]") :
    Team.from_tokens (t.render ++ s :: r) = .ok (t.toTeam, s :: r) := by
  obtain ⟨h1, h2⟩ := hv
  show Team.from_tokens
      ("[TEAM]" :: (t.idTok :: ((t.players.map PlayerSpec.render).flatten ++ s :: r))) = _
  rw [Team.from_tokens]
  simp only [popTok, ok_bind]
  rw [if_neg (by simp)]
  rw [h1]
  rw [playersLoop_render r h2 hs]
  simp [TeamSpec.toTeam]

/-- The weather section of the §6 grammar. -/
structure WeatherSpec where
  condToks : List String
  tTok : String
  wTok : String
  temperature : Int
  wind : Int

def WeatherSpec.render (w : WeatherSpec) : List String :=
  "[WEATHER]" :: w.condToks ++ [w.tTok, w.wTok]

def WeatherSpec.toWeather (w : WeatherSpec) : Weather :=
  ⟨joinSpace w.condToks, w.temperature, w.wind⟩

def WeatherSpec.Valid (w : WeatherSpec) : Prop :=
  (∀ t ∈ w.condToks, startsWithDigit t = false) ∧
  startsWithDigit w.tTok = true ∧
  pyInt? w.tTok = some w.temperature ∧ pyInt? w.wTok = some w.wind

theorem Weather_render {w : WeatherSpec} (hv : w.Valid) (r : List String) :
    Weather.from_tokens (w.render ++ r) = .ok (w.toWeather, r) := by
  obtain ⟨h1, h2, h3, h4⟩ := hv
  have hre : w.render ++ r =
      "[WEATHER]" :: (w.condToks ++ w.tTok :: w.wTok :: r) := by
    simp [WeatherSpec.render]
  rw [hre, Weather.from_tokens]
  simp only [popTok, ok_bind]
  rw [if_neg (by simp)]
  rw [weatherCondScan_render (w.wTok :: r) h1 h2]
  simp only [popTok, ok_bind]
  rw [h3]
  simp only [popTok, ok_bind]
  rw [h4]
  rfl

/-- The context section of the §6 grammar. -/
structure ContextSpec where
  pkTok : String
  pk : Int
  dateTok : String
  venueToks : List String
  weather : WeatherSpec
  home : TeamSpec
  away : TeamSpec

def ContextSpec.render (c : ContextSpec) : List String :=
  "[GAME]" :: c.pkTok :: "[DATE]" :: c.dateTok :: "[VENUE]" ::
    (c.venueToks ++ c.weather.render ++ c.home.render ++ c.away.render)

def ContextSpec.toContext (c : ContextSpec) : GameContext :=
  ⟨c.pk, c.dateTok, joinSpace c.venueToks, c.weather.toWeather,
    c.home.toTeam, c.away.toTeam⟩

def ContextSpec.Valid (c : ContextSpec) : Prop :=
  pyInt? c.pkTok = some c.pk ∧
  (∀ t ∈ c.venueToks, t ≠ "[WEATHER]") ∧
  c.weather.Valid ∧ c.home.Valid ∧ c.away.Valid

theorem Context_render {c : ContextSpec} (hv : c.Valid) (r : List String) :
    GameContext.from_tokens (c.render ++ "[GAME_START]" :: r) =
      .ok (c.toContext, "[GAME_START]" :: r) := by
  obtain ⟨h1, h2, hw, hh, ha⟩ := hv
  have hre : c.render ++ "[GAME_START]" :: r =
      "[GAME]" :: (c.pkTok :: ("[DATE]" :: (c.dateTok :: ("[VENUE]" ::
        (c.venueToks ++ "[WEATHER]" :: (c.weather.condToks ++
          c.weather.tTok :: c.weather.wTok ::
            (c.home.render ++ c.away.render ++ "[GAME_START]" :: r))))))) := by
    simp [ContextSpec.render, WeatherSpec.render]
  rw [hre, GameContext.from_tokens]
  try simp only [popTok, ok_bind]
  rw [if_neg (by simp)]
  rw [h1]
  try simp only [popTok, ok_bind]
  try simp only
  rw [if_neg (by simp)]
  try simp only [popTok, ok_bind]
  try simp only
  rw [if_neg (by simp)]
  rw [venueScan_render _ h2]
  try simp only [popTok, ok_bind]
  try simp only
  have hwr := Weather_render hw
    (c.home.render ++ c.away.render ++ "[GAME_START]" :: r)
  rw [show ("[WEATHER]" :: (c.weather.condToks ++ c.weather.tTok ::
      c.weather.wTok :: (c.home.render ++ c.away.render ++ "[GAME_START]" :: r))) =
      c.weather.render ++ (c.home.render ++ c.away.render ++ "[GAME_START]" :: r) by
    simp [WeatherSpec.render]]
  rw [hwr]
  simp only [ok_bind]
  rw [show (c.home.render ++ c.away.render ++ "[GAME_START]" :: r) =
      c.home.render ++ "[TEAM]" :: (c.away.idTok ::
        ((c.away.players.map PlayerSpec.render).flatten ++ "[GAME_START]" :: r)) by
    simp [TeamSpec.render]]
  rw [Team_render hh _ (Or.inl rfl)]
  simp only [ok_bind]
  rw [show ("[TEAM]" :: (c.away.idTok ::
      ((c.away.players.map PlayerSpec.render).flatten ++ "[GAME_START]" :: r))) =
      c.away.render ++ "[GAME_START]" :: r by simp [TeamSpec.render]]
  rw [Team_render ha _ (Or.inr rfl)]
  rfl

/-- A movement of the §6 grammar: free-text runner name, start base, `->`,
end base, optional `[out]`. -/
structure MoveSpec where
  nameToks : List String
  startTok : String
  endTok : String
  startBase : Int
  endBase : Int
  out : Bool

def MoveSpec.render (m : MoveSpec) : List String :=
  m.nameToks ++ m.startTok :: "->" :: m.endTok ::
    (if m.out then ["[out]"] else [])

def MoveSpec.toMovement (m : MoveSpec) : Movement :=
  ⟨joinSpace m.nameToks, some m.startBase, some m.endBase, m.out⟩

def MoveSpec.Valid (m : MoveSpec) : Prop :=
  "->" ∉ m.nameToks ∧
  (∀ t ∈ m.nameToks, t ≠ "[PLAY]" ∧ t ≠ "[GAME_END]" ∧ t ≠ "[out]") ∧
  m.startTok ≠ "->" ∧ m.startTok ≠ "[PLAY]" ∧ m.startTok ≠ "[GAME_END]" ∧
  m.startTok ≠ "[out]" ∧
  parseBaseTok m.startTok = .ok m.startBase ∧
  parseBaseTok m.endTok = .ok m.endBase

theorem Movement_render {m : MoveSpec} (hv : m.Valid) {next : String}
    (r : List String) (hnext : next ≠ "[out]") :
    Movement.from_tokens (m.render ++ next :: r) =
      .ok (m.toMovement, next :: r) := by
  obtain ⟨hnm, hnt, hs1, hsp, hsg, hso, hsb, heb⟩ := hv
  cases hout : m.out with
  | false =>
      have hre : m.render ++ next :: r =
          m.nameToks ++ m.startTok :: "->" :: m.endTok :: (next :: r) := by
        simp [MoveSpec.render, hout]
      rw [hre, Movement.from_tokens,
        movementNameScan_render hnm hs1 (m.endTok :: next :: r)]
      simp only [popTok, ok_bind]
      rw [hsb]
      simp only [popTok, ok_bind]
      rw [heb]
      simp only [popTok, ok_bind]
      rw [if_neg hnext]
      simp [MoveSpec.toMovement, hout]
  | true =>
      have hre : m.render ++ next :: r =
          m.nameToks ++ m.startTok :: "->" :: m.endTok ::
            ("[out]" :: (next :: r)) := by
        simp [MoveSpec.render, hout]
      rw [hre, Movement.from_tokens,
        movementNameScan_render hnm hs1 (m.endTok :: "[out]" :: next :: r)]
      simp only [popTok, ok_bind]
      rw [hsb]
      simp only [popTok, ok_bind]
      rw [heb]
      simp only [popTok, ok_bind]
      simp [MoveSpec.toMovement, hout]

theorem moveRenderHead (m : MoveSpec) (hv : m.Valid) (X : List String) :
    ∃ x xs, m.render ++ X = x :: xs ∧ x ≠ "[out]" ∧ x ≠ "[PLAY]" ∧
      x ≠ "[GAME_END]" := by
  obtain ⟨hnm, hnt, hs1, hsp, hsg, hso, hsb, heb⟩ := hv
  cases hn : m.nameToks with
  | nil =>
      refine ⟨m.startTok, "->" :: m.endTok ::
        ((if m.out then ["[out]"] else []) ++ X), ?_, hso, hsp, hsg⟩
      simp [MoveSpec.render, hn]
  | cons t nm' =>
      have ht := hnt t (by simp [hn])
      refine ⟨t, nm' ++ m.startTok :: "->" :: m.endTok ::
        ((if m.out then ["[out]"] else []) ++ X), ?_, ht.2.2, ht.1, ht.2.1⟩
      simp [MoveSpec.render, hn]

theorem movementsLoop_render (ms : List MoveSpec) {stop : String}
    (r : List String) (hstop : stop = "[PLAY]" ∨ stop = "[GAME_END]")
    (hv : ∀ m ∈ ms, m.Valid) :
    movementsLoop ((ms.map MoveSpec.render).flatten ++ stop :: r) =
      .ok (ms.map MoveSpec.toMovement, stop :: r) := by
  induction ms with
  | nil =>
      show movementsLoop (stop :: r) = Except.ok ([], stop :: r)
      rw [movementsLoop.eq_def]
      simp [hstop]
  | cons m ms' ih =>
      have hm := hv m (by simp)
      have hnext : ∃ x xs, (ms'.map MoveSpec.render).flatten ++ stop :: r =
          x :: xs ∧ x ≠ "[out]" ∧ x ≠ "[PLAY]" ∧ x ≠ "[GAME_END]" ∨
          ((ms'.map MoveSpec.render).flatten ++ stop :: r = x :: xs ∧
            x ≠ "[out]") := by
        cases ms' with
        | nil =>
            exact ⟨stop, r, Or.inr ⟨by simp, by
              rcases hstop with h | h <;> simp [h]⟩⟩
        | cons m2 ms'' =>
            obtain ⟨x, xs, hxs, hx1, hx2, hx3⟩ :=
              moveRenderHead m2 (hv m2 (by simp))
                ((ms''.map MoveSpec.render).flatten ++ stop :: r)
            exact ⟨x, xs, Or.inl ⟨by simpa using hxs, hx1, hx2, hx3⟩⟩
      obtain ⟨x, xs, hcase⟩ := hnext
      have hxeq : (ms'.map MoveSpec.render).flatten ++ stop :: r = x :: xs ∧
          x ≠ "[out]" := by
        rcases hcase with ⟨h1, h2, -, -⟩ | ⟨h1, h2⟩ <;> exact ⟨h1, h2⟩
      obtain ⟨hxeq1, hxout⟩ := hxeq
      obtain ⟨y, ys, hys, hy1, hy2, hy3⟩ :=
        moveRenderHead m hm ((ms'.map MoveSpec.render).flatten ++ stop :: r)
      have hfull : ((m :: ms').map MoveSpec.render).flatten ++ stop :: r =
          y :: ys := by simpa using hys
      rw [hfull, movementsLoop.eq_def]
      try simp only
      rw [if_neg (by simp [hy2, hy3])]
      have hmv : Movement.from_tokens (y :: ys) =
          .ok (m.toMovement, x :: xs) := by
        rw [← hys, hxeq1]
        exact Movement_render hm xs hxout
      rw [hmv]
      try simp only
      rw [← hxeq1]
      rw [ih (fun q hq => hv q (by simp [hq]))]
      simp


/-- A `PlayContents` slot, as named by the spec's Schema Table. -/
inductive Slot where
  | batter | pitcher | fielders | catcher | runner | scoring_runner | base
deriving DecidableEq

/-- The Schema Table: the ordered field-marker slots expected after each
play-type, transcribed from the `match play.play_type` dispatch of
`Parser.__parse_play` in `src/interpret/parse_game.py` (every slot list is
implicitly followed by `[MOVEMENTS]`; `GAME_ADVISORY` has no slots and no
movements section). -/
def schema : PlayType → List Slot
  | .GROUNDOUT | .BUNT_GROUNDOUT | .LINEOUT | .BUNT_LINEOUT | .FLYOUT
  | .POP_OUT | .BUNT_POP_OUT | .FORCEOUT | .DOUBLE_PLAY | .TRIPLE_PLAY
  | .RUNNER_DOUBLE_PLAY | .RUNNER_TRIPLE_PLAY | .GROUNDED_INTO_DOUBLE_PLAY
  | .STRIKEOUT_DOUBLE_PLAY | .FIELDERS_CHOICE | .CATCHER_INTERFERENCE
  | .FIELD_ERROR => [.batter, .pitcher, .fielders]
  | .STRIKEOUT | .SINGLE | .DOUBLE | .TRIPLE | .HOME_RUN | .WALK
  | .INTENT_WALK | .HIT_BY_PITCH => [.batter, .pitcher]
  | .PICKOFF | .PICKOFF_ERROR | .CAUGHT_STEALING
  | .PICKOFF_CAUGHT_STEALING => [.base, .runner, .fielders]
  | .WILD_PITCH => [.pitcher, .runner]
  | .RUNNER_OUT | .FIELD_OUT => [.runner, .fielders]
  | .BALK => [.pitcher]
  | .PASSED_BALL | .ERROR => [.pitcher, .catcher]
  | .STOLEN_BASE => [.base, .runner]
  | .SAC_FLY | .SAC_FLY_DOUBLE_PLAY
  | .FIELDERS_CHOICE_OUT => [.batter, .pitcher, .fielders, .scoring_runner]
  | .SAC_BUNT | .SAC_BUNT_DOUBLE_PLAY => [.batter, .pitcher, .fielders, .runner]
  | .GAME_ADVISORY => []

/-- Values for the slots of a play. -/
structure SlotVals where
  batterToks : List String
  pitcherToks : List String
  fieldersToks : List String
  catcherToks : List String
  runnerToks : List String
  scoringToks : List String
  baseTok : String
  baseVal : Int

def renderSlot (v : SlotVals) : Slot → List String
  | .batter => "[BATTER]" :: v.batterToks
  | .pitcher => "[PITCHER]" :: v.pitcherToks
  | .fielders => "[FIELDERS]" :: v.fieldersToks
  | .catcher => "[CATCHER]" :: v.catcherToks
  | .runner => "[RUNNER]" :: v.runnerToks
  | .scoring_runner => "[SCORING_RUNNER]" :: v.scoringToks
  | .base => ["[BASE]", v.baseTok]

/-- The field assignment `contentLoop` performs for each slot marker. -/
def setSlot (v : SlotVals) (c : PlayContents) : Slot → PlayContents
  | .batter => { c with batter := some (joinSpace v.batterToks) }
  | .pitcher => { c with pitcher := some (joinSpace v.pitcherToks) }
  | .fielders => { c with fielders := some [joinSpace v.fieldersToks] }
  | .catcher => { c with catcher := some (joinSpace v.catcherToks) }
  | .runner => { c with runner := some (joinSpace v.runnerToks) }
  | .scoring_runner => { c with scoring_runner := some (joinSpace v.scoringToks) }
  | .base => { c with base := some v.baseVal }

def nameOk (l : List String) : Prop :=
  ∀ t ∈ l, ¬(t ∈ ALL_PLAY_CONTENT_TOKENS ∨ t = "[MOVEMENTS]")

def SlotVals.Valid (v : SlotVals) : Prop :=
  nameOk v.batterToks ∧ nameOk v.pitcherToks ∧ nameOk v.fieldersToks ∧
  nameOk v.catcherToks ∧ nameOk v.runnerToks ∧ nameOk v.scoringToks ∧
  parseBaseTok v.baseTok = .ok v.baseVal ∧
  ¬(v.baseTok ∈ ALL_PLAY_CONTENT_TOKENS ∨ v.baseTok = "[MOVEMENTS]")

theorem contentLoop_nil (c : PlayContents) : contentLoop [] c = .ok c := by
  rw [contentLoop.eq_def]

theorem contentLoop_batter (ts : List String) (c : PlayContents) :
    contentLoop ("[BATTER]" :: ts) c =
      contentLoop (contentsNameScan ts).2
        { c with batter := some (joinSpace (contentsNameScan ts).1) } := by
  rw [contentLoop.eq_def]
  simp

theorem contentLoop_pitcher (ts : List String) (c : PlayContents) :
    contentLoop ("[PITCHER]" :: ts) c =
      contentLoop (contentsNameScan ts).2
        { c with pitcher := some (joinSpace (contentsNameScan ts).1) } := by
  rw [contentLoop.eq_def]
  simp

theorem contentLoop_fielders (ts : List String) (c : PlayContents) :
    contentLoop ("[FIELDERS]" :: ts) c =
      contentLoop (contentsNameScan ts).2
        { c with fielders := some [joinSpace (contentsNameScan ts).1] } := by
  rw [contentLoop.eq_def]
  simp

theorem contentLoop_catcher (ts : List String) (c : PlayContents) :
    contentLoop ("[CATCHER]" :: ts) c =
      contentLoop (contentsNameScan ts).2
        { c with catcher := some (joinSpace (contentsNameScan ts).1) } := by
  rw [contentLoop.eq_def]
  simp

theorem contentLoop_runner (ts : List String) (c : PlayContents) :
    contentLoop ("[RUNNER]" :: ts) c =
      contentLoop (contentsNameScan ts).2
        { c with runner := some (joinSpace (contentsNameScan ts).1) } := by
  rw [contentLoop.eq_def]
  simp

theorem contentLoop_scoring (ts : List String) (c : PlayContents) :
    contentLoop ("[SCORING_RUNNER]" :: ts) c =
      contentLoop (contentsNameScan ts).2
        { c with scoring_runner := some (joinSpace (contentsNameScan ts).1) } := by
  rw [contentLoop.eq_def]
  simp

theorem contentLoop_base {b : String} {n : Int} (r : List String)
    (c : PlayContents) (hb : parseBaseTok b = .ok n) :
    contentLoop ("[BASE]" :: b :: r) c =
      contentLoop r { c with base := some n } := by
  rw [contentLoop.eq_def]
  simp [hb]

theorem slotsFlattenHeadForm (v : SlotVals) (slots : List Slot) :
    (slots.map (renderSlot v)).flatten = [] ∨
      ∃ s r', (slots.map (renderSlot v)).flatten = s :: r' ∧
        (s ∈ ALL_PLAY_CONTENT_TOKENS ∨ s = "[MOVEMENTS]") := by
  cases slots with
  | nil => exact Or.inl rfl
  | cons s slots' =>
      right
      cases s with
      | batter =>
          exact ⟨"[BATTER]", v.batterToks ++ (slots'.map (renderSlot v)).flatten,
            by simp [renderSlot], by left; decide⟩
      | pitcher =>
          exact ⟨"[PITCHER]", v.pitcherToks ++ (slots'.map (renderSlot v)).flatten,
            by simp [renderSlot], by left; decide⟩
      | fielders =>
          exact ⟨"[FIELDERS]", v.fieldersToks ++ (slots'.map (renderSlot v)).flatten,
            by simp [renderSlot], by left; decide⟩
      | catcher =>
          exact ⟨"[CATCHER]", v.catcherToks ++ (slots'.map (renderSlot v)).flatten,
            by simp [renderSlot], by left; decide⟩
      | runner =>
          exact ⟨"[RUNNER]", v.runnerToks ++ (slots'.map (renderSlot v)).flatten,
            by simp [renderSlot], by left; decide⟩
      | scoring_runner =>
          exact ⟨"[SCORING_RUNNER]", v.scoringToks ++ (slots'.map (renderSlot v)).flatten,
            by simp [renderSlot], by left; decide⟩
      | base =>
          exact ⟨"[BASE]", v.baseTok :: (slots'.map (renderSlot v)).flatten,
            by simp [renderSlot], by left; decide⟩

theorem contentLoop_render (v : SlotVals) (hv : v.Valid) :
    ∀ (slots : List Slot) (c : PlayContents),
      contentLoop ((slots.map (renderSlot v)).flatten) c =
        .ok (slots.foldl (setSlot v) c) := by
  intro slots
  induction slots with
  | nil => intro c; exact contentLoop_nil c
  | cons s slots' ih =>
      intro c
      have hhead := slotsFlattenHeadForm v slots'
      obtain ⟨h1, h2, h3, h4, h5, h6, h7, h8⟩ := hv
      cases s with
      | batter =>
          rw [show (((Slot.batter :: slots').map (renderSlot v)).flatten) =
            "[BATTER]" :: (v.batterToks ++ (slots'.map (renderSlot v)).flatten)
            by simp [renderSlot]]
          rw [contentLoop_batter, contentsNameScan_render h1 hhead]
          exact ih _
      | pitcher =>
          rw [show (((Slot.pitcher :: slots').map (renderSlot v)).flatten) =
            "[PITCHER]" :: (v.pitcherToks ++ (slots'.map (renderSlot v)).flatten)
            by simp [renderSlot]]
          rw [contentLoop_pitcher, contentsNameScan_render h2 hhead]
          exact ih _
      | fielders =>
          rw [show (((Slot.fielders :: slots').map (renderSlot v)).flatten) =
            "[FIELDERS]" :: (v.fieldersToks ++ (slots'.map (renderSlot v)).flatten)
            by simp [renderSlot]]
          rw [contentLoop_fielders, contentsNameScan_render h3 hhead]
          exact ih _
      | catcher =>
          rw [show (((Slot.catcher :: slots').map (renderSlot v)).flatten) =
            "[CATCHER]" :: (v.catcherToks ++ (slots'.map (renderSlot v)).flatten)
            by simp [renderSlot]]
          rw [contentLoop_catcher, contentsNameScan_render h4 hhead]
          exact ih _
      | runner =>
          rw [show (((Slot.runner :: slots').map (renderSlot v)).flatten) =
            "[RUNNER]" :: (v.runnerToks ++ (slots'.map (renderSlot v)).flatten)
            by simp [renderSlot]]
          rw [contentLoop_runner, contentsNameScan_render h5 hhead]
          exact ih _
      | scoring_runner =>
          rw [show (((Slot.scoring_runner :: slots').map (renderSlot v)).flatten) =
            "[SCORING_RUNNER]" :: (v.scoringToks ++ (slots'.map (renderSlot v)).flatten)
            by simp [renderSlot]]
          rw [contentLoop_scoring, contentsNameScan_render h6 hhead]
          exact ih _
      | base =>
          rw [show (((Slot.base :: slots').map (renderSlot v)).flatten) =
            "[BASE]" :: (v.baseTok :: (slots'.map (renderSlot v)).flatten)
            by simp [renderSlot]]
          rw [contentLoop_base _ _ h7]
          exact ih _

theorem slotsFlattenNoMovements (v : SlotVals) (hv : v.Valid)
    (slots : List Slot) :
    ∀ t ∈ (slots.map (renderSlot v)).flatten, t ≠ "[MOVEMENTS]" := by
  obtain ⟨h1, h2, h3, h4, h5, h6, h7, h8⟩ := hv
  induction slots with
  | nil => simp
  | cons s slots' ih =>
      intro t ht
      rw [show ((s :: slots').map (renderSlot v)).flatten =
        renderSlot v s ++ (slots'.map (renderSlot v)).flatten by simp] at ht
      rw [List.mem_append] at ht
      rcases ht with ht | ht
      · cases s <;> simp [renderSlot] at ht <;>
          rcases ht with ht | ht <;>
            first
              | (subst ht; decide)
              | (subst ht; exact fun hx => h8 (Or.inr hx))
              | (first
                  | exact fun hx => (h1 t ht) (Or.inr hx)
                  | exact fun hx => (h2 t ht) (Or.inr hx)
                  | exact fun hx => (h3 t ht) (Or.inr hx)
                  | exact fun hx => (h4 t ht) (Or.inr hx)
                  | exact fun hx => (h5 t ht) (Or.inr hx)
                  | exact fun hx => (h6 t ht) (Or.inr hx))
      · exact ih t ht

theorem PlayContents_render (slots : List Slot) (v : SlotVals)
    (hv : v.Valid) (ms : List MoveSpec) (hms : ∀ m ∈ ms, m.Valid)
    {stop : String} (r : List String)
    (hstop : stop = "[PLAY]" ∨ stop = "[GAME_END]") :
    PlayContents.from_tokens ((slots.map (renderSlot v)).flatten ++
        "[MOVEMENTS]" :: ((ms.map MoveSpec.render).flatten ++ stop :: r)) =
      .ok ({ slots.foldl (setSlot v) {} with
        movements := some (ms.map MoveSpec.toMovement) }, stop :: r) := by
  rw [PlayContents.from_tokens]
  rw [collectUntilMovements_render _ (slotsFlattenNoMovements v hv slots)]
  simp only [popTok, ok_bind]
  rw [contentLoop_render v hv slots {}]
  simp only [popTok, ok_bind]
  rw [if_neg (by simp)]
  rw [movementsLoop_render ms r hstop hms]


theorem contentsHeadForm (v : SlotVals) (slots : List Slot)
    (X : List String) :
    ∃ s' xs, (slots.map (renderSlot v)).flatten ++ "[MOVEMENTS]" :: X =
      s' :: xs ∧ (s' ∈ ALL_PLAY_CONTENT_TOKENS ∨ s' = "[GAME_END]") := by
  rcases slotsFlattenHeadForm v slots with h | ⟨s, r', hsr, hs⟩
  · exact ⟨"[MOVEMENTS]", X, by simp [h], Or.inl (by decide)⟩
  · refine ⟨s, r' ++ "[MOVEMENTS]" :: X, by simp [hsr], ?_⟩
    rcases hs with hs | hs
    · exact Or.inl hs
    · subst hs; exact Or.inl (by decide)

/-- A play of the §6 grammar: the `[PLAY]` marker, free-text type tokens,
then (for non-advisory types) the Schema-Table slots and a `[MOVEMENTS]`
section. -/
structure PlaySpec where
  tyToks : List String
  ty : PlayType
  vals : SlotVals
  moves : List MoveSpec

def PlaySpec.render (p : PlaySpec) : List String :=
  "[PLAY]" :: p.tyToks ++
    (if p.ty = PlayType.GAME_ADVISORY then []
     else ((schema p.ty).map (renderSlot p.vals)).flatten ++
       "[MOVEMENTS]" :: (p.moves.map MoveSpec.render).flatten)

def PlaySpec.toPlay (p : PlaySpec) : Play :=
  ⟨p.ty,
    if p.ty = PlayType.GAME_ADVISORY then {}
    else { (schema p.ty).foldl (setSlot p.vals) {} with
      movements := some (p.moves.map MoveSpec.toMovement) }⟩

def PlaySpec.Valid (p : PlaySpec) : Prop :=
  (∀ t ∈ p.tyToks, ¬(t ∈ ALL_PLAY_CONTENT_TOKENS ∨ t = "[GAME_END]")) ∧
  PlayType.from_text (joinSpace p.tyToks) = some p.ty ∧
  p.vals.Valid ∧ ∀ m ∈ p.moves, m.Valid

theorem Play_render (p : PlaySpec) (hv : p.Valid) {stop : String}
    (r : List String) (hstop : stop = "[PLAY]" ∨ stop = "[GAME_END]")
    (hadv : p.ty = PlayType.GAME_ADVISORY → stop = "[GAME_END]") :
    Play.from_tokens (p.render ++ stop :: r) = .ok (p.toPlay, stop :: r) := by
  obtain ⟨h1, h2, hvv, hmv⟩ := hv
  by_cases hty : p.ty = PlayType.GAME_ADVISORY
  · have hre : p.render ++ stop :: r = "[PLAY]" :: (p.tyToks ++ stop :: r) := by
      simp [PlaySpec.render, hty]
    rw [hre, Play.from_tokens]
    simp only [popTok, ok_bind]
    rw [if_neg (by simp)]
    rw [playTypeScan_render r h1 (Or.inr (hadv hty))]
    simp only [ok_bind]
    try simp only
    rw [h2]
    try simp only
    rw [if_pos hty]
    simp [PlaySpec.toPlay, hty]
  · have hre : p.render ++ stop :: r = "[PLAY]" ::
        (p.tyToks ++ (((schema p.ty).map (renderSlot p.vals)).flatten ++
          "[MOVEMENTS]" :: ((p.moves.map MoveSpec.render).flatten ++ stop :: r))) := by
      simp [PlaySpec.render, hty]
    obtain ⟨s', xs, hsx, hs'⟩ := contentsHeadForm p.vals (schema p.ty)
      ((p.moves.map MoveSpec.render).flatten ++ stop :: r)
    rw [hre, Play.from_tokens]
    simp only [popTok, ok_bind]
    rw [if_neg (by simp)]
    rw [hsx, playTypeScan_render xs h1 hs']
    simp only [ok_bind]
    try simp only
    rw [h2]
    try simp only
    rw [if_neg hty]
    rw [← hsx]
    rw [PlayContents_render (schema p.ty) p.vals hvv p.moves hmv r hstop]
    simp [PlaySpec.toPlay, hty]

/-- A `GAME_ADVISORY` play may only appear as the final play: the scan of
`Play.from_tokens` would otherwise swallow the following `[PLAY]` marker. -/
def advisoryLastB : List PlaySpec → Bool
  | [] => true
  | p :: rest =>
      (rest.isEmpty || decide (p.ty ≠ PlayType.GAME_ADVISORY)) &&
        advisoryLastB rest

theorem playRenderHead (p : PlaySpec) (X : List String) :
    p.render ++ X = "[PLAY]" :: (p.tyToks ++
      (if p.ty = PlayType.GAME_ADVISORY then []
       else ((schema p.ty).map (renderSlot p.vals)).flatten ++
         "[MOVEMENTS]" :: (p.moves.map MoveSpec.render).flatten) ++ X) := by
  simp [PlaySpec.render]

theorem playsLoop_render (ps : List PlaySpec) (r : List String)
    (hv : ∀ p ∈ ps, p.Valid) (hal : advisoryLastB ps = true) :
    playsLoop ((ps.map PlaySpec.render).flatten ++ "[GAME_END]" :: r) =
      .ok (ps.map PlaySpec.toPlay, "[GAME_END]" :: r) := by
  induction ps with
  | nil =>
      show playsLoop ("[GAME_END]" :: r) = Except.ok ([], "[GAME_END]" :: r)
      rw [playsLoop.eq_def]
      simp
  | cons p ps' ih =>
      have hpv := hv p (by simp)
      have hstop : ∃ stop xs, (ps'.map PlaySpec.render).flatten ++
          "[GAME_END]" :: r = stop :: xs ∧
          (stop = "[PLAY]" ∨ stop = "[GAME_END]") ∧
          (p.ty = PlayType.GAME_ADVISORY → stop = "[GAME_END]") := by
        cases hq : ps' with
        | nil => exact ⟨"[GAME_END]", r, by simp, Or.inr rfl, fun _ => rfl⟩
        | cons q qs' =>
            have hadv : p.ty ≠ PlayType.GAME_ADVISORY := by
              rw [hq, advisoryLastB] at hal
              simp [List.isEmpty] at hal
              exact hal.1
            refine ⟨"[PLAY]", q.tyToks ++
              (if q.ty = PlayType.GAME_ADVISORY then []
               else ((schema q.ty).map (renderSlot q.vals)).flatten ++
                 "[MOVEMENTS]" :: (q.moves.map MoveSpec.render).flatten) ++
              ((qs'.map PlaySpec.render).flatten ++ "[GAME_END]" :: r), ?_,
              Or.inl rfl, fun hx => absurd hx hadv⟩
            rw [show ((q :: qs').map PlaySpec.render).flatten ++
              "[GAME_END]" :: r = q.render ++
                ((qs'.map PlaySpec.render).flatten ++ "[GAME_END]" :: r)
              by simp]
            rw [playRenderHead]
      obtain ⟨stop, xs, hsx, hstop', hadvstop⟩ := hstop
      have hfull : ((p :: ps').map PlaySpec.render).flatten ++
          "[GAME_END]" :: r = "[PLAY]" :: (p.tyToks ++
            (if p.ty = PlayType.GAME_ADVISORY then []
             else ((schema p.ty).map (renderSlot p.vals)).flatten ++
               "[MOVEMENTS]" :: (p.moves.map MoveSpec.render).flatten) ++
            ((ps'.map PlaySpec.render).flatten ++ "[GAME_END]" :: r)) := by
        rw [show ((p :: ps').map PlaySpec.render).flatten ++
          "[GAME_END]" :: r = p.render ++
            ((ps'.map PlaySpec.render).flatten ++ "[GAME_END]" :: r) by simp]
        rw [playRenderHead]
      rw [hfull, playsLoop.eq_def]
      try simp only
      rw [if_neg (by decide)]
      have hplay : Play.from_tokens ("[PLAY]" :: (p.tyToks ++
          (if p.ty = PlayType.GAME_ADVISORY then []
           else ((schema p.ty).map (renderSlot p.vals)).flatten ++
             "[MOVEMENTS]" :: (p.moves.map MoveSpec.render).flatten) ++
          ((ps'.map PlaySpec.render).flatten ++ "[GAME_END]" :: r))) =
          .ok (p.toPlay, stop :: xs) := by
        rw [← playRenderHead, hsx]
        exact Play_render p hpv xs hstop' hadvstop
      rw [hplay]
      try simp only
      rw [← hsx]
      have hal' : advisoryLastB ps' = true := by
        rw [advisoryLastB] at hal
        simp at hal
        exact hal.2
      rw [ih (fun q hq => hv q (by simp [hq])) hal']
      simp

/-- A full transcript of the §6 grammar. -/
structure GameSpec where
  ctx : ContextSpec
  plays : List PlaySpec

def GameSpec.render (g : GameSpec) : List String :=
  g.ctx.render ++ "[GAME_START]" ::
    ((g.plays.map PlaySpec.render).flatten ++ ["[GAME_END]"])

def GameSpec.toGame (g : GameSpec) : Game :=
  ⟨g.ctx.toContext, g.plays.map PlaySpec.toPlay⟩

def GameSpec.Valid (g : GameSpec) : Prop :=
  g.ctx.Valid ∧ (∀ p ∈ g.plays, p.Valid) ∧ advisoryLastB g.plays = true

theorem Game_render {g : GameSpec} (hv : g.Valid) (r : List String) :
    Game.from_tokens (g.ctx.render ++ "[GAME_START]" ::
        ((g.plays.map PlaySpec.render).flatten ++ "[GAME_END]" :: r)) =
      .ok (g.toGame, "[GAME_END]" :: r) := by
  obtain ⟨hc, hp, hal⟩ := hv
  rw [Game.from_tokens]
  rw [Context_render hc]
  simp only [popTok, ok_bind]
  rw [if_neg (by simp)]
  rw [playsLoop_render g.plays r hp hal]
  rfl

theorem Game_render_full {g : GameSpec} (hv : g.Valid) :
    Game.from_tokens g.render = .ok (g.toGame, ["[GAME_END]"]) := by
  have hre : g.render = g.ctx.render ++ "[GAME_START]" ::
      ((g.plays.map PlaySpec.render).flatten ++ "[GAME_END]" :: []) := by
    simp [GameSpec.render]
  rw [hre]
  exact Game_render ⟨hv.1, hv.2.1, hv.2.2⟩ []


/-- A well-formed token: non-empty and free of separator characters. -/
def TokOk (t : String) : Prop :=
  t.data ≠ [] ∧ ∀ c ∈ t.data, isSplitChar c = false

theorem splitGo_no_split (cs : List Char) (cur : List Char)
    (h : ∀ c ∈ cs, isSplitChar c = false) :
    splitGo cs cur = [String.mk (cur.reverse ++ cs)] := by
  induction cs generalizing cur with
  | nil => simp [splitGo]
  | cons c cs' ih =>
      rw [splitGo, if_neg (by simp [h c (by simp)])]
      rw [ih (c :: cur) (fun x hx => h x (by simp [hx]))]
      simp

theorem splitGo_append (pre : List Char) (rest : List Char) (cur : List Char)
    (h : ∀ c ∈ pre, isSplitChar c = false) :
    splitGo (pre ++ ' ' :: rest) cur =
      String.mk (cur.reverse ++ pre) :: splitRun rest := by
  induction pre generalizing cur with
  | nil =>
      rw [List.nil_append, splitGo, if_pos (by decide)]
      simp
  | cons c cs' ih =>
      rw [List.cons_append, splitGo, if_neg (by simp [h c (by simp)])]
      rw [ih (c :: cur) (fun x hx => h x (by simp [hx]))]
      simp

theorem pySplitWS_joinSpace (ts : List String) (hne : ts ≠ [])
    (htok : ∀ t ∈ ts, TokOk t) : pySplitWS (joinSpace ts) = ts := by
  induction ts with
  | nil => exact absurd rfl hne
  | cons t ts' ih =>
      cases ts' with
      | nil =>
          show pySplitWS (joinSpace [t]) = [t]
          rw [show joinSpace [t] = t from rfl, pySplitWS,
            splitGo_no_split t.data [] ((htok t (by simp)).2)]
          simp
      | cons u ts'' =>
          have hju : joinSpace (t :: u :: ts'') =
              t ++ " " ++ joinSpace (u :: ts'') := rfl
          have hdata : (joinSpace (t :: u :: ts'')).data =
              t.data ++ ' ' :: (joinSpace (u :: ts'')).data := by
            rw [hju]
            simp [String.data_append]
          obtain ⟨hu1, hu2⟩ := htok u (by simp)
          obtain ⟨c, cs, hc⟩ : ∃ c cs, u.data = c :: cs := by
            cases hud : u.data with
            | nil => exact absurd hud hu1
            | cons c cs => exact ⟨c, cs, rfl⟩
          obtain ⟨X, hX⟩ : ∃ X, (joinSpace (u :: ts'')).data = c :: X := by
            cases ts'' with
            | nil => exact ⟨cs, by simpa [joinSpace] using hc⟩
            | cons w ws =>
                refine ⟨cs ++ ' ' :: (joinSpace (w :: ws)).data, ?_⟩
                rw [show joinSpace (u :: w :: ws) =
                  u ++ " " ++ joinSpace (w :: ws) from rfl]
                simp [String.data_append, hc]
          have hcns : isSplitChar c = false := hu2 c (by simp [hc])
          have hrun : splitRun (joinSpace (u :: ts'')).data =
              pySplitWS (joinSpace (u :: ts'')) := by
            rw [hX, splitRun, if_neg (by simp [hcns]), pySplitWS, hX,
              splitGo, if_neg (by simp [hcns])]
          rw [pySplitWS, hdata,
            splitGo_append t.data _ [] ((htok t (by simp)).2)]
          rw [hrun, ih (by simp) (fun x hx => htok x (by simp [hx]))]
          simp

/-- Whether a named slot of `PlayContents` is populated (non-`None`). -/
def slotPopulated (c : PlayContents) : Slot → Bool
  | .batter => c.batter.isSome
  | .pitcher => c.pitcher.isSome
  | .fielders => c.fielders.isSome
  | .catcher => c.catcher.isSome
  | .runner => c.runner.isSome
  | .scoring_runner => c.scoring_runner.isSome
  | .base => c.base.isSome

theorem setSlot_populated (v : SlotVals) (c : PlayContents) (s0 s : Slot) :
    slotPopulated (setSlot v c s0) s =
      (slotPopulated c s || decide (s = s0)) := by
  cases s0 <;> cases s <;> simp [setSlot, slotPopulated]

theorem foldl_setSlot_populated (v : SlotVals) (slots : List Slot) :
    ∀ (c : PlayContents) (s : Slot),
      slotPopulated (slots.foldl (setSlot v) c) s =
        (slotPopulated c s || decide (s ∈ slots)) := by
  induction slots with
  | nil => intro c s; simp
  | cons s0 slots' ih =>
      intro c s
      rw [List.foldl_cons, ih, setSlot_populated]
      simp [List.mem_cons, Bool.or_assoc, decide_eq_true_eq]
      try tauto

theorem foldl_setSlot_movements (v : SlotVals) (slots : List Slot) :
    ∀ c : PlayContents, (slots.foldl (setSlot v) c).movements = c.movements := by
  induction slots with
  | nil => intro c; simp
  | cons s0 slots' ih =>
      intro c
      rw [List.foldl_cons, ih]
      cases s0 <;> simp [setSlot]

theorem slotPopulated_movements_update (c : PlayContents)
    (ms : List Movement) (s : Slot) :
    slotPopulated { c with movements := some ms } s = slotPopulated c s := by
  cases s <;> simp [slotPopulated]


theorem joinSpace_mem_char {t : String} {l : List String} (ht : t ∈ l)
    {c : Char} (hc : c ∈ t.data) : c ∈ (joinSpace l).data := by
  induction l with
  | nil => simp at ht
  | cons s rest ih =>
      cases rest with
      | nil =>
          simp at ht
          subst ht
          exact hc
      | cons u rest' =>
          rw [show joinSpace (s :: u :: rest') =
            s ++ " " ++ joinSpace (u :: rest') from rfl]
          simp only [String.data_append, List.mem_append]
          rcases List.mem_cons.mp ht with h | h
          · subst h; exact Or.inl (Or.inl hc)
          · exact Or.inr (ih h)

theorem normalizePlayText_bracket {s : String} (h : '[' ∈ s.data) :
    '[' ∈ (normalizePlayText s).data := by
  rw [normalizePlayText]
  exact List.mem_map.mpr ⟨'[', h, by decide⟩

theorem from_text_bracket_none {s : String} (h : '[' ∈ s.data) :
    PlayType.from_text s = none := by
  rw [PlayType.from_text]
  apply List.find?_eq_none.mpr
  intro pt hpt
  simp only [decide_eq_true_eq]
  intro heq
  have hb := normalizePlayText_bracket h
  rw [← heq] at hb
  have hall : '[' ∉ (PlayType.value pt).data := by cases pt <;> decide
  exact hall hb

theorem playTypeScan_skip (a : List String)
    (h : ∀ t ∈ a, ¬(t ∈ ALL_PLAY_CONTENT_TOKENS ∨ t = "[GAME_END]"))
    (b : List String) :
    playTypeScan (a ++ b) =
      match playTypeScan b with
      | .error e => .error e
      | .ok (c, r) => .ok (a ++ c, r) := by
  induction a with
  | nil =>
      rw [List.nil_append]
      cases playTypeScan b with
      | error e => rfl
      | ok p => cases p; rfl
  | cons t ts ih =>
      rw [List.cons_append, playTypeScan, if_neg (h t (by simp))]
      rw [ih (fun x hx => h x (by simp [hx]))]
      cases playTypeScan b with
      | error e => rfl
      | ok p => cases p; simp

/-- The core of the `GAME_ADVISORY` restriction: when the play-type text is
followed by another `[PLAY]` marker rather than a `PlayContents` field
marker or `[GAME_END]`, the play-type scan of `Play.from_tokens` swallows
the `[PLAY]` marker into the play-type text, and the parse of the play
fails (either the joined type text contains `[`, which matches no
enumeration member, or the scan exhausts the stream). -/
theorem play_advisory_then_play_fails (tyToks : List String)
    (h1 : ∀ t ∈ tyToks, ¬(t ∈ ALL_PLAY_CONTENT_TOKENS ∨ t = "[GAME_END]"))
    (rest : List String) :
    ∃ e, Play.from_tokens ("[PLAY]" :: (tyToks ++ "[PLAY]" :: rest)) =
      .error e := by
  rw [Play.from_tokens]
  simp only [popTok, ok_bind]
  rw [if_neg (by simp)]
  have hskip := playTypeScan_skip (tyToks ++ ["[PLAY]"])
    (by
      intro t ht
      rcases List.mem_append.mp ht with ht | ht
      · exact h1 t ht
      · simp at ht; subst ht; decide)
    rest
  rw [show tyToks ++ "[PLAY]" :: rest = (tyToks ++ ["[PLAY]"]) ++ rest by
    simp]
  rw [hskip]
  cases hscan : playTypeScan rest with
  | error e => exact ⟨e, rfl⟩
  | ok p =>
      obtain ⟨c, r⟩ := p
      have hbr : '[' ∈ (joinSpace ((tyToks ++ ["[PLAY]"]) ++ c)).data := by
        apply @joinSpace_mem_char "[PLAY]" ((tyToks ++ ["[PLAY]"]) ++ c)
        · simp
        · decide
      simp only [ok_bind]
      try simp only
      rw [from_text_bracket_none hbr]
      exact ⟨.badValue (joinSpace (tyToks ++ ["[PLAY]"] ++ c)), rfl⟩

theorem playsLoop_advisory_fails (ps : List PlaySpec) (r : List String)
    (hv : ∀ p ∈ ps, p.Valid)
    (hbad : ∃ pre p post, ps = pre ++ p :: post ∧
      p.ty = PlayType.GAME_ADVISORY ∧ post ≠ []) :
    ∃ e, playsLoop ((ps.map PlaySpec.render).flatten ++ "[GAME_END]" :: r) =
      .error e := by
  induction ps with
  | nil =>
      obtain ⟨pre, p, post, hps, -, -⟩ := hbad
      exact absurd hps (by simp)
  | cons p0 ps' ih =>
      have hp0 := hv p0 (by simp)
      have hne : ps' ≠ [] := by
        obtain ⟨pre, p, post, hps, hadv, hpost⟩ := hbad
        cases pre with
        | nil =>
            simp at hps
            intro hx
            rw [hx] at hps
            exact hpost hps.2.symm
        | cons q pre' =>
            simp at hps
            intro hx
            rw [hx] at hps
            simp at hps
      obtain ⟨q, qs', hq⟩ : ∃ q qs', ps' = q :: qs' := by
        cases ps' with
        | nil => exact absurd rfl hne
        | cons q qs' => exact ⟨q, qs', rfl⟩
      by_cases hadv0 : p0.ty = PlayType.GAME_ADVISORY
      · -- the first play is an advisory immediately followed by `[PLAY]`
        subst hq
        have hfull : ((p0 :: q :: qs').map PlaySpec.render).flatten ++
            "[GAME_END]" :: r = "[PLAY]" :: (p0.tyToks ++ "[PLAY]" ::
              (q.tyToks ++
                (if q.ty = PlayType.GAME_ADVISORY then []
                 else ((schema q.ty).map (renderSlot q.vals)).flatten ++
                   "[MOVEMENTS]" :: (q.moves.map MoveSpec.render).flatten) ++
                ((qs'.map PlaySpec.render).flatten ++ "[GAME_END]" :: r))) := by
          simp [PlaySpec.render, hadv0]
        obtain ⟨e, he⟩ := play_advisory_then_play_fails p0.tyToks hp0.1 _
        refine ⟨e, ?_⟩
        rw [hfull, playsLoop.eq_def]
        try simp only
        rw [if_neg (by decide)]
        rw [he]
      · -- the first play parses; the failure is further down
        subst hq
        have hstop : ∃ stop xs, ((q :: qs').map PlaySpec.render).flatten ++
            "[GAME_END]" :: r = stop :: xs ∧
            (stop = "[PLAY]" ∨ stop = "[GAME_END]") := by
          refine ⟨"[PLAY]", q.tyToks ++
            (if q.ty = PlayType.GAME_ADVISORY then []
             else ((schema q.ty).map (renderSlot q.vals)).flatten ++
               "[MOVEMENTS]" :: (q.moves.map MoveSpec.render).flatten) ++
            ((qs'.map PlaySpec.render).flatten ++ "[GAME_END]" :: r), ?_,
            Or.inl rfl⟩
          rw [show ((q :: qs').map PlaySpec.render).flatten ++
            "[GAME_END]" :: r = q.render ++
              ((qs'.map PlaySpec.render).flatten ++ "[GAME_END]" :: r)
            by simp]
          rw [playRenderHead]
        obtain ⟨stop, xs, hsx, hstop'⟩ := hstop
        have hfull : ((p0 :: q :: qs').map PlaySpec.render).flatten ++
            "[GAME_END]" :: r = p0.render ++
              (((q :: qs').map PlaySpec.render).flatten ++ "[GAME_END]" :: r) := by
          simp
        have hplay : Play.from_tokens (p0.render ++
            (((q :: qs').map PlaySpec.render).flatten ++ "[GAME_END]" :: r)) =
            .ok (p0.toPlay, stop :: xs) := by
          rw [hsx]
          exact Play_render p0 hp0 xs hstop' (fun hx => absurd hx hadv0)
        have hbad' : ∃ pre p post, q :: qs' = pre ++ p :: post ∧
            p.ty = PlayType.GAME_ADVISORY ∧ post ≠ [] := by
          obtain ⟨pre, p, post, hps, hadv, hpost⟩ := hbad
          cases pre with
          | nil =>
              simp at hps
              exact absurd (hps.1 ▸ hadv) hadv0
          | cons w pre' =>
              simp at hps
              exact ⟨pre', p, post, hps.2, hadv, hpost⟩
        obtain ⟨e, he⟩ := ih (fun x hx => hv x (by simp [hx])) hbad'
        refine ⟨e, ?_⟩
        rw [hfull]
        obtain ⟨y, ys, hys⟩ : ∃ y ys, p0.render ++
            (((q :: qs').map PlaySpec.render).flatten ++ "[GAME_END]" :: r) =
              y :: ys ∧ y = "[PLAY]" := by
          rw [playRenderHead]
          exact ⟨"[PLAY]", _, rfl, rfl⟩
        obtain ⟨hys1, hys2⟩ := hys
        rw [hys1, playsLoop.eq_def]
        try simp only
        rw [if_neg (by simp [hys2])]
        rw [← hys1, hplay]
        try simp only
        rw [← hsx] at *
        rw [he]


theorem game_advisory_midgame_fails (g : GameSpec) (hctx : g.ctx.Valid)
    (hp : ∀ p ∈ g.plays, p.Valid)
    (hbad : ∃ pre p post, g.plays = pre ++ p :: post ∧
      p.ty = PlayType.GAME_ADVISORY ∧ post ≠ []) :
    ∃ e, Game.from_tokens g.render = .error e := by
  obtain ⟨e, he⟩ := playsLoop_advisory_fails g.plays [] hp hbad
  refine ⟨e, ?_⟩
  rw [show g.render = g.ctx.render ++ "[GAME_START]" ::
    ((g.plays.map PlaySpec.render).flatten ++ "[GAME_END]" :: []) by
      simp [GameSpec.render]]
  rw [Game.from_tokens, Context_render hctx]
  simp only [popTok, ok_bind]
  rw [if_neg (by simp)]
  rw [he]

deriving instance DecidableEq for Except

instance (p : PlayerSpec) : Decidable p.Valid := by
  unfold PlayerSpec.Valid; infer_instance

instance (t : TeamSpec) : Decidable t.Valid := by
  unfold TeamSpec.Valid; infer_instance

instance (w : WeatherSpec) : Decidable w.Valid := by
  unfold WeatherSpec.Valid; infer_instance

instance (c : ContextSpec) : Decidable c.Valid := by
  unfold ContextSpec.Valid; infer_instance

instance (m : MoveSpec) : Decidable m.Valid := by
  unfold MoveSpec.Valid; infer_instance

instance (l : List String) : Decidable (nameOk l) := by
  unfold nameOk; infer_instance

instance (v : SlotVals) : Decidable v.Valid := by
  unfold SlotVals.Valid; infer_instance

instance (p : PlaySpec) : Decidable p.Valid := by
  unfold PlaySpec.Valid; infer_instance

instance (g : GameSpec) : Decidable g.Valid := by
  unfold GameSpec.Valid; infer_instance

instance (t : String) : Decidable (TokOk t) := by
  unfold TokOk; infer_instance


theorem slotPopulated_default (s : Slot) :
    slotPopulated {} s = false := by
  cases s <;> rfl

def sampleWeather : WeatherSpec :=
  { condToks := ["Clear"], tTok := "70", wTok := "5",
    temperature := 70, wind := 5 }

def sampleHome : TeamSpec :=
  { idTok := "100", id := 100,
    players := [⟨"[PITCHER]", .PITCHER, ["Jane", "Doe"]⟩] }

def sampleAway : TeamSpec :=
  { idTok := "200", id := 200,
    players := [⟨"[CATCHER]", .CATCHER, ["John", "Roe"]⟩] }

/-- Concrete context used by witness transcripts. -/
def sampleCtx : ContextSpec :=
  { pkTok := "7", pk := 7, dateTok := "2023-04-10",
    venueToks := ["Test", "Park"],
    weather := sampleWeather, home := sampleHome, away := sampleAway }

def sampleVals : SlotVals :=
  { batterToks := ["John", "Roe"], pitcherToks := ["Jane", "Doe"],
    fieldersToks := ["Jane", "Doe"], catcherToks := ["Jane", "Doe"],
    runnerToks := ["John", "Roe"], scoringToks := ["John", "Roe"],
    baseTok := "2", baseVal := 2 }

def strikeoutPlay : PlaySpec :=
  { tyToks := ["STRIKEOUT"], ty := .STRIKEOUT, vals := sampleVals,
    moves := [⟨["John", "Roe"], "1", "2", 1, 2, false⟩] }

def advisoryPlay : PlaySpec :=
  { tyToks := ["GAME", "ADVISORY"], ty := .GAME_ADVISORY,
    vals := sampleVals, moves := [] }

def sampleGame : GameSpec := { ctx := sampleCtx, plays := [strikeoutPlay] }

def advisoryEndGame : GameSpec :=
  { ctx := sampleCtx, plays := [advisoryPlay] }

def advisoryMidGame : GameSpec :=
  { ctx := sampleCtx, plays := [advisoryPlay, strikeoutPlay] }

theorem playContents_movements {ts : List String}
    {c : PlayContents} {rest : List String}
    (h : PlayContents.from_tokens ts = .ok (c, rest)) :
    c.movements.isSome := by
  rw [PlayContents.from_tokens] at h
  rw [except_bind_ok] at h
  obtain ⟨⟨ctx, ts1⟩, hcol, h⟩ := h
  try simp only at h
  rw [except_bind_ok] at h
  obtain ⟨contents, hcl, h⟩ := h
  try simp only at h
  rw [except_bind_ok] at h
  obtain ⟨⟨mt, ts2⟩, hpop, h⟩ := h
  try simp only at h
  split at h
  · simp at h
  · cases hml : movementsLoop ts2 with
    | error e => rw [hml] at h; simp at h
    | ok q =>
        obtain ⟨ms, r⟩ := q
        rw [hml] at h
        try simp only at h
        simp only [Except.ok.injEq, Prod.mk.injEq] at h
        obtain ⟨hc, -⟩ := h
        rw [← hc]
        rfl

theorem play_movements {ts : List String} {p : Play}
    {rest : List String} (h : Play.from_tokens ts = .ok (p, rest))
    (hadv : p.play_type ≠ PlayType.GAME_ADVISORY) :
    p.contents.movements.isSome := by
  rw [Play.from_tokens] at h
  rw [except_bind_ok] at h
  obtain ⟨⟨pt, ts0⟩, hpop, h⟩ := h
  try simp only at h
  split at h
  · simp at h
  · rw [except_bind_ok] at h
    obtain ⟨⟨tyToks, ts1⟩, hscan, h⟩ := h
    try simp only at h
    cases hft : PlayType.from_text (joinSpace tyToks) with
    | none => rw [hft] at h; simp at h
    | some ty =>
        rw [hft] at h
        try simp only at h
        split at h
        · rename_i hty
          simp only [Except.ok.injEq, Prod.mk.injEq] at h
          obtain ⟨hp, -⟩ := h
          rw [← hp] at hadv
          exact absurd hty hadv
        · cases hpc : PlayContents.from_tokens ts1 with
          | error e => rw [hpc] at h; simp at h
          | ok q =>
              obtain ⟨c, ts2⟩ := q
              rw [hpc] at h
              try simp only at h
              simp only [Except.ok.injEq, Prod.mk.injEq] at h
              obtain ⟨hp, -⟩ := h
              rw [← hp]
              exact playContents_movements hpc

theorem playsLoopMovAux (n : Nat) :
    ∀ (ts : List String) {ps : List Play} {r : List String},
      ts.length ≤ n → playsLoop ts = .ok (ps, r) →
      ∀ p ∈ ps, p.play_type ≠ PlayType.GAME_ADVISORY →
        p.contents.movements.isSome := by
  induction n with
  | zero =>
      intro ts ps r hlen h
      match ts with
      | [] => simp [playsLoop] at h
      | t :: ts' => simp at hlen
  | succ n ih =>
      intro ts ps r hlen h
      match ts with
      | [] => simp [playsLoop] at h
      | t :: ts' =>
          rw [playsLoop.eq_def] at h
          try simp only at h
          split at h
          · simp only [Except.ok.injEq, Prod.mk.injEq] at h
            obtain ⟨h1, -⟩ := h
            rw [← h1]
            intro p hp
            simp at hp
          · cases hpl : Play.from_tokens (t :: ts') with
            | error e => rw [hpl] at h; simp at h
            | ok q =>
                obtain ⟨p0, rest⟩ := q
                rw [hpl] at h
                try simp only at h
                cases hll : playsLoop rest with
                | error e => rw [hll] at h; simp at h
                | ok q2 =>
                    obtain ⟨ps', r'⟩ := q2
                    rw [hll] at h
                    try simp only at h
                    simp only [Except.ok.injEq, Prod.mk.injEq] at h
                    obtain ⟨h1, -⟩ := h
                    rw [← h1]
                    intro p hp hadv
                    rcases List.mem_cons.mp hp with hp | hp
                    · subst hp
                      exact play_movements hpl hadv
                    · have hc := play_consumes hpl
                      exact ih rest (by simp at hlen hc ⊢; omega) hll p hp hadv

/-- C2 (amended): for every successfully parsed game, every play whose type
is not `GAME_ADVISORY` has a non-absent movements list; `GAME_ADVISORY`
plays are built as a bare `PlayContents()` whose `movements` field stays
`None` (see the counterexample). -/
theorem c2_movements_present_unless_advisory {ts : List String} {g : Game}
    {rest : List String} (h : Game.from_tokens ts = .ok (g, rest)) :
    ∀ p ∈ g.plays, p.play_type ≠ PlayType.GAME_ADVISORY →
      p.contents.movements.isSome := by
  rw [Game.from_tokens] at h
  rw [except_bind_ok] at h
  obtain ⟨⟨ctx, ts1⟩, hctx, h⟩ := h
  try simp only at h
  rw [except_bind_ok] at h
  obtain ⟨⟨gs, ts2⟩, hpop, h⟩ := h
  try simp only at h
  split at h
  · simp at h
  · cases hpl : playsLoop ts2 with
    | error e => rw [hpl] at h; simp at h
    | ok q =>
        obtain ⟨ps, r⟩ := q
        rw [hpl] at h
        try simp only at h
        simp only [Except.ok.injEq, Prod.mk.injEq] at h
        obtain ⟨h1, -⟩ := h
        rw [← h1]
        exact playsLoopMovAux ts2.length ts2 le_rfl hpl

/-- C2 witness: a concrete parse with a `STRIKEOUT` play whose movements
list is present. -/
theorem c2_witness :
    ∃ g rest, Game.from_tokens sampleGame.render = .ok (g, rest) ∧
      ∀ p ∈ g.plays, p.play_type ≠ PlayType.GAME_ADVISORY →
        p.contents.movements.isSome :=
  ⟨sampleGame.toGame, ["[GAME_END]"], Game_render_full (by decide),
    c2_movements_present_unless_advisory (Game_render_full (by decide))⟩

/-- C2 counterexample: a successful parse of a transcript whose only play is
`GAME_ADVISORY`; the parsed play's `contents.movements` is `None`, refuting
"the contents.movements field is a (possibly empty) list of Movement, never
absent/None" for `GAME_ADVISORY` plays. -/
theorem c2_counterexample :
    ∃ G, Game.from_tokens advisoryEndGame.render = .ok (G, ["[GAME_END]"]) ∧
      ∃ p, G.plays = [p] ∧ p.play_type = PlayType.GAME_ADVISORY ∧
        p.contents.movements = none :=
  ⟨advisoryEndGame.toGame, Game_render_full (by decide),
    ⟨PlaySpec.toPlay advisoryPlay, by decide, by decide, by decide⟩⟩


/-- C1 (amended): for every transcript conforming to the §6 grammar as
refined by the Schema Table — reserved markers never occur inside free
text, `GAME_ADVISORY` plays carry no field markers or `[MOVEMENTS]` section
and occur only as the final play — `parse_game` succeeds, and the set of
populated (non-`None`) `PlayContents` slots of every parsed play is exactly
the slot set the Schema Table dictates for its `play_type` (with `movements`
present exactly for non-advisory plays).  The unamended claim fails because
a `GAME_ADVISORY` play followed by another play aborts the parse (see the
counterexample and C10). -/
theorem c1_schema_exact (g : GameSpec) (hv : g.Valid)
    (htok : ∀ t ∈ g.render, TokOk t) :
    parse_game (joinSpace g.render) = .ok (g.toGame, ["[GAME_END]"]) ∧
    ∀ p ∈ g.toGame.plays,
      (∀ s : Slot,
        slotPopulated p.contents s = decide (s ∈ schema p.play_type)) ∧
      p.contents.movements.isSome =
        decide (p.play_type ≠ PlayType.GAME_ADVISORY) := by
  constructor
  · rw [parse_game, pySplitWS_joinSpace g.render
      (by simp [GameSpec.render, ContextSpec.render]) htok]
    exact Game_render_full hv
  · intro p hp
    rw [show g.toGame.plays = g.plays.map PlaySpec.toPlay from rfl] at hp
    obtain ⟨q, hq, rfl⟩ := List.mem_map.mp hp
    by_cases hty : q.ty = PlayType.GAME_ADVISORY
    · have hq1 : PlaySpec.toPlay q = ⟨q.ty, {}⟩ := by
        simp [PlaySpec.toPlay, hty]
      rw [hq1]
      constructor
      · intro s
        show slotPopulated {} s = decide (s ∈ schema q.ty)
        rw [slotPopulated_default, hty]
        simp [schema]
      · show (none : Option (List Movement)).isSome =
          decide (q.ty ≠ PlayType.GAME_ADVISORY)
        simp [hty]
    · have hq1 : PlaySpec.toPlay q = ⟨q.ty,
        { (schema q.ty).foldl (setSlot q.vals) {} with
          movements := some (q.moves.map MoveSpec.toMovement) }⟩ := by
        simp [PlaySpec.toPlay, hty]
      rw [hq1]
      constructor
      · intro s
        show slotPopulated
          { (schema q.ty).foldl (setSlot q.vals) {} with
            movements := some (q.moves.map MoveSpec.toMovement) } s = _
        rw [slotPopulated_movements_update, foldl_setSlot_populated,
          slotPopulated_default]
        simp
      · show (some (q.moves.map MoveSpec.toMovement)).isSome =
          decide (q.ty ≠ PlayType.GAME_ADVISORY)
        simp [hty]

/-- C1 witness: a concrete valid transcript with a `STRIKEOUT` play parses
to the expected tree with exactly the schema's slots populated. -/
theorem c1_witness :
    sampleGame.Valid ∧
    parse_game (joinSpace sampleGame.render) =
      .ok (sampleGame.toGame, ["[GAME_END]"]) :=
  ⟨by decide, (c1_schema_exact sampleGame (by decide) (by decide)).1⟩

/-- C1 counterexample: a transcript conforming to the §6 grammar (as
written, with the Schema-Table reading of play bodies) in which a
`GAME_ADVISORY` play is followed by a `STRIKEOUT` play.  The claim asserts
that parsing succeeds on every grammar-conforming input, but the parse
fails: the play-type scan swallows the following `[PLAY]` marker. -/
theorem c1_counterexample :
    ∃ e, parse_game (joinSpace advisoryMidGame.render) = .error e := by
  obtain ⟨e, he⟩ := game_advisory_midgame_fails advisoryMidGame (by decide)
    (by decide) ⟨[], advisoryPlay, [strikeoutPlay], rfl, rfl, by simp⟩
  refine ⟨e, ?_⟩
  rw [parse_game, pySplitWS_joinSpace advisoryMidGame.render (by decide)
    (by decide)]
  exact he

/-- C10: in the token-list implementation, a transcript in which a
`GAME_ADVISORY` play is immediately followed by another `[PLAY]` marker
never parses: the play-type scan of `Play.from_tokens` stops only at
`PlayContents` field markers or `[GAME_END]`, so it consumes the following
`[PLAY]` token into the play-type text and the parse fails. -/
theorem c10_advisory_not_final_fails (g : GameSpec) (hctx : g.ctx.Valid)
    (hp : ∀ p ∈ g.plays, p.Valid)
    (hbad : ∃ pre p post, g.plays = pre ++ p :: post ∧
      p.ty = PlayType.GAME_ADVISORY ∧ post ≠ []) :
    ∃ e, Game.from_tokens g.render = .error e :=
  game_advisory_midgame_fails g hctx hp hbad

/-- C10 witness: the concrete advisory-then-strikeout transcript fails. -/
theorem c10_witness :
    ∃ e, Game.from_tokens advisoryMidGame.render = .error e :=
  c10_advisory_not_final_fails advisoryMidGame (by decide) (by decide)
    ⟨[], advisoryPlay, [strikeoutPlay], rfl, rfl, by simp⟩


/-- C6: for every `Movement` produced by a successful parse, `is_out` is
`true` if and only if the `[out]` marker literally followed the movement's
start-base/end-base pair in the input token stream. -/
theorem c6_is_out_iff_out_marker {ts : List String} {m : Movement}
    {rest : List String} (h : Movement.from_tokens ts = .ok (m, rest)) :
    ∃ nm sTok eTok tail,
      ts = nm ++ sTok :: "->" :: eTok :: tail ∧
      rest = (if m.is_out then tail.tail else tail) ∧
      (m.is_out = true ↔ tail.head? = some "[out]") := by
  obtain ⟨nm, sTok, eTok, sb, eb, hap, -, -, -, -, -, hno, -⟩ :=
    Movement.from_tokens_shape h
  cases hmo : m.is_out with
  | false =>
      rw [hmo] at hap
      simp only [if_neg Bool.false_ne_true] at hap
      obtain ⟨t, ts', hr, hneq⟩ := hno hmo
      refine ⟨nm, sTok, eTok, rest, hap, by simp [hmo], ?_⟩
      rw [hr]
      simp [hneq]
  | true =>
      rw [hmo] at hap
      simp only [if_pos] at hap
      refine ⟨nm, sTok, eTok, "[out]" :: rest, hap, by simp [hmo], ?_⟩
      simp [hmo]

/-- C6 witness at a concrete movement with an `[out]` marker. -/
theorem c6_witness :
    ∃ nm sTok eTok tail,
      (["Jo", "1", "->", "2", "[out]", "[PLAY]"] : List String) =
        nm ++ sTok :: "->" :: eTok :: tail ∧
      (["[PLAY]"] : List String) =
        (if (⟨"Jo", some 1, some 2, true⟩ : Movement).is_out then tail.tail
         else tail) ∧
      ((⟨"Jo", some 1, some 2, true⟩ : Movement).is_out = true ↔
        tail.head? = some "[out]") :=
  @c6_is_out_iff_out_marker ["Jo", "1", "->", "2", "[out]", "[PLAY]"]
    ⟨"Jo", some 1, some 2, true⟩ ["[PLAY]"] rfl

/-- C7: the literal token `home` parses to the integer `4` in every
base-token context: the start base of a movement, the end base of a
movement, and the `[BASE]` slot of a play's contents. -/
theorem c7_home_is_base_four :
    (∀ (nm : List String) (e : String) (tail : List String) (m : Movement)
      (rest : List String), "->" ∉ nm →
      Movement.from_tokens (nm ++ "home" :: "->" :: e :: tail) =
        .ok (m, rest) →
      m.start_base = some 4) ∧
    (∀ (nm : List String) (s : String) (tail : List String) (m : Movement)
      (rest : List String), "->" ∉ nm → s ≠ "->" →
      Movement.from_tokens (nm ++ s :: "->" :: "home" :: tail) =
        .ok (m, rest) →
      m.end_base = some 4) ∧
    (∀ (r : List String) (c : PlayContents),
      contentLoop ("[BASE]" :: "home" :: r) c =
        contentLoop r { c with base := some 4 }) := by
  refine ⟨?_, ?_, ?_⟩
  · intro nm e tail m rest hnm h
    have hscan1 := movementNameScan_render hnm
      (show "home" ≠ "->" by decide) (e :: tail)
    obtain ⟨nm2, sTok2, eTok2, sb, eb, -, -, hsb, hstart, -, -, -, hscan2⟩ :=
      Movement.from_tokens_shape h
    rw [hscan1] at hscan2
    simp only [Except.ok.injEq, Prod.mk.injEq] at hscan2
    obtain ⟨-, hlist⟩ := hscan2
    have hstok : sTok2 = "home" := by
      have := congrArg List.head? hlist
      simpa using this.symm
    rw [hstok] at hsb
    rw [show parseBaseTok "home" = .ok 4 from rfl] at hsb
    simp only [Except.ok.injEq] at hsb
    rw [hstart, hsb]
  · intro nm s tail m rest hnm hs h
    have hscan1 := movementNameScan_render hnm hs ("home" :: tail)
    obtain ⟨nm2, sTok2, eTok2, sb, eb, -, -, -, -, heb, hend, -, hscan2⟩ :=
      Movement.from_tokens_shape h
    rw [hscan1] at hscan2
    simp only [Except.ok.injEq, Prod.mk.injEq] at hscan2
    obtain ⟨-, hlist⟩ := hscan2
    have hetok : eTok2 = "home" := by
      have := congrArg (fun l => l.get? 2) hlist
      simpa using this.symm
    rw [hetok] at heb
    rw [show parseBaseTok "home" = .ok 4 from rfl] at heb
    simp only [Except.ok.injEq] at heb
    rw [hend, heb]
  · intro r c
    rw [contentLoop.eq_def]
    simp [parseBaseTok]

/-- C7 witness at concrete inputs. -/
theorem c7_witness :
    ("->" ∉ (["Al"] : List String)) ∧
    (⟨"Al", some 4, some 2, false⟩ : Movement).start_base = some 4 ∧
    contentLoop ("[BASE]" :: "home" :: ["[GAME_END]"]) {} =
      contentLoop ["[GAME_END]"] { base := some 4 } :=
  ⟨by decide,
    c7_home_is_base_four.1 ["Al"] "2" ["[PLAY]"]
      ⟨"Al", some 4, some 2, false⟩ ["[PLAY]"] (by decide) rfl,
    c7_home_is_base_four.2.2 ["[GAME_END]"] {}⟩

/-- C8 (amended): after `[WEATHER]`, the condition scan accumulates tokens
and stops exactly at the first token that starts with a decimal digit
(`re.match(r"\d+", ...)`); then two integers are read.  The literal `home`
does not match `\d+` and is accumulated as a condition token rather than
stopping the scan — see the counterexample. -/
theorem c8_weather_scan (condToks : List String) (tTok wTok : String)
    (rest : List String) (t w : Int)
    (hc : ∀ c ∈ condToks, startsWithDigit c = false)
    (ht : startsWithDigit tTok = true)
    (hti : pyInt? tTok = some t) (hwi : pyInt? wTok = some w) :
    Weather.from_tokens ("[WEATHER]" :: (condToks ++ tTok :: wTok :: rest)) =
      .ok (⟨joinSpace condToks, t, w⟩, rest) := by
  have := @Weather_render ⟨condToks, tTok, wTok, t, w⟩
    ⟨hc, ht, hti, hwi⟩ rest
  simpa [WeatherSpec.render, WeatherSpec.toWeather] using this

/-- C8 witness at a concrete weather section. -/
theorem c8_witness :
    (∀ c ∈ (["Cloudy"] : List String), startsWithDigit c = false) ∧
    Weather.from_tokens ("[WEATHER]" :: (["Cloudy"] ++ "70" :: "5" ::
        ["[TEAM]"])) = .ok (⟨joinSpace ["Cloudy"], 70, 5⟩, ["[TEAM]"]) :=
  ⟨by decide, c8_weather_scan ["Cloudy"] "70" "5" ["[TEAM]"] 70 5
    (by decide) (by decide) (by decide) (by decide)⟩

/-- C8 counterexample: the claim says the condition scan stops at the first
token matching an integer **or the literal `home`**; the code stops only at
digit-initial tokens, so `home` is consumed into the condition (and the two
following integers still parse).  Under the claim's reading the condition
would stop before `home` and `int("home")` would fail. -/
theorem c8_counterexample :
    Weather.from_tokens ["[WEATHER]", "home", "70", "5"] =
      .ok (⟨"home", 70, 5⟩, []) := rfl


theorem split_invariants : ∀ cs : List Char,
    (∀ cur, ∃ s tl, splitGo cs cur = s :: tl ∧ cur.length ≤ s.length ∧
      ∀ t ∈ tl.dropLast, t ≠ "") ∧
    (∀ t ∈ (splitRun cs).dropLast, t ≠ "") := by
  intro cs
  induction cs with
  | nil =>
      constructor
      · intro cur
        exact ⟨String.mk cur.reverse, [], by simp [splitGo], by simp, by simp⟩
      · simp [splitRun]
  | cons c cs' ih =>
      constructor
      · intro cur
        rw [splitGo]
        split
        · exact ⟨String.mk cur.reverse, splitRun cs', rfl, by simp, ih.2⟩
        · obtain ⟨s, tl, hgo, hlen, hint⟩ := ih.1 (c :: cur)
          exact ⟨s, tl, hgo, by simp at hlen; omega, hint⟩
      · rw [splitRun]
        split
        · exact ih.2
        · obtain ⟨s, tl, hgo, hlen, hint⟩ := ih.1 [c]
          rw [hgo]
          cases tl with
          | nil => simp
          | cons u tl' =>
              intro t ht
              rw [List.dropLast_cons_of_ne_nil (by simp)] at ht
              rcases List.mem_cons.mp ht with ht | ht
              · subst ht
                intro hx
                rw [hx] at hlen
                simp at hlen
              · exact hint t ht

/-- C9 (amended): every token produced by the lexing step
`re.split(r"[\s,]+", text)` other than possibly the first and the last is
non-empty; the first and last tokens may be empty — see the
counterexample, where a leading separator yields an empty first token. -/
theorem c9_interior_tokens_nonempty (text : String) :
    ∀ t ∈ ((pySplitWS text).drop 1).dropLast, t ≠ "" := by
  obtain ⟨s, tl, hgo, -, hint⟩ := (split_invariants text.data).1 []
  rw [pySplitWS, hgo]
  simpa using hint

/-- C9 witness at a concrete text. -/
theorem c9_witness :
    ("b" : String) ∈ ((pySplitWS "a b c").drop 1).dropLast ∧
      ("b" : String) ≠ "" :=
  ⟨by decide, c9_interior_tokens_nonempty "a b c" "b" (by decide)⟩

/-- C9 counterexample: splitting a text that begins with a space yields an
empty leading token, refuting "no token is ever empty". -/
theorem c9_counterexample :
    pySplitWS " a" = ["", "a"] ∧ "" ∈ pySplitWS " a" :=
  ⟨rfl, by rw [show pySplitWS " a" = ["", "a"] from rfl]; simp⟩


/-!  ## Stream extension

`ExtRel res res2 l₂` relates the result of a builder on a token list `l` to
its result on `l ++ l₂`: a success carries over with the extra tokens
appended to the unconsumed rest, a non-`endOfStream` error carries over
unchanged, and an `endOfStream` error promises nothing (the extra tokens may
change the outcome).  Every builder of `src/game.py` satisfies it, which is
exactly the fact that the parser never looks beyond the tokens it consumes
(plus bounded lookahead).  -/
def ExtRel {α : Type} (res res2 : Except PErr (α × List String))
    (l₂ : List String) : Prop :=
  match res with
  | .ok (a, r) => res2 = .ok (a, r ++ l₂)
  | .error e => e = .endOfStream ∨ res2 = .error e

theorem ExtRel.err_refl {α : Type} (e : PErr) (l₂ : List String) :
    ExtRel (α := α) (.error e) (.error e) l₂ := Or.inr rfl

theorem ExtRel.bind {α β : Type}
    {x x' : Except PErr (α × List String)} {l₂ : List String}
    (hx : ExtRel x x' l₂)
    (f : α × List String → Except PErr (β × List String))
    (hf : ∀ a r, ExtRel (f (a, r)) (f (a, r ++ l₂)) l₂) :
    ExtRel (x >>= f) (x' >>= f) l₂ := by
  cases x with
  | ok p =>
      obtain ⟨a, r⟩ := p
      rw [show x' = .ok (a, r ++ l₂) from hx]
      exact hf a r
  | error e =>
      rcases hx with hx | hx
      · exact Or.inl hx
      · rw [hx]
        exact ExtRel.err_refl e l₂

theorem ExtRel.bind_pure {α β : Type} (x : Except PErr α)
    {l₂ : List String} (f g : α → Except PErr (β × List String))
    (hf : ∀ a, ExtRel (f a) (g a) l₂) :
    ExtRel (x >>= f) (x >>= g) l₂ := by
  cases x with
  | ok a => exact hf a
  | error e => exact Or.inr rfl

theorem popTok_ext (l l₂ : List String) :
    ExtRel (popTok l) (popTok (l ++ l₂)) l₂ := by
  cases l with
  | nil => exact Or.inl rfl
  | cons t ts => exact rfl

theorem movementNameScan_ext (l l₂ : List String) :
    ExtRel (movementNameScan l) (movementNameScan (l ++ l₂)) l₂ := by
  induction l with
  | nil => exact Or.inl rfl
  | cons t0 rest ih =>
      cases rest with
      | nil => exact Or.inl rfl
      | cons t1 rest' =>
          rw [show (t0 :: t1 :: rest') ++ l₂ = t0 :: t1 :: (rest' ++ l₂)
            from rfl]
          rw [movementNameScan, movementNameScan]
          split
          · exact rfl
          · have hrec := ih
            rw [show (t1 :: rest') ++ l₂ = t1 :: (rest' ++ l₂) from rfl]
              at hrec
            cases hs : movementNameScan (t1 :: rest') with
            | ok p =>
                obtain ⟨nm, r⟩ := p
                rw [hs] at hrec
                rw [show movementNameScan (t1 :: (rest' ++ l₂)) =
                  .ok (nm, r ++ l₂) from hrec]
                exact rfl
            | error e =>
                rw [hs] at hrec
                rcases hrec with hrec | hrec
                · exact Or.inl hrec
                · rw [hrec]
                  exact ExtRel.err_refl e l₂

theorem movement_ext (l l₂ : List String) :
    ExtRel (Movement.from_tokens l) (Movement.from_tokens (l ++ l₂)) l₂ := by
  rw [Movement.from_tokens, Movement.from_tokens]
  refine ExtRel.bind (movementNameScan_ext l l₂) _ ?_
  intro nm r
  try simp only
  refine ExtRel.bind (popTok_ext r l₂) _ ?_
  intro sTok r2
  try simp only
  refine ExtRel.bind_pure (parseBaseTok sTok) _ _ ?_
  intro sb
  refine ExtRel.bind (popTok_ext r2 l₂) _ ?_
  intro ar r3
  try simp only
  refine ExtRel.bind (popTok_ext r3 l₂) _ ?_
  intro eTok r4
  try simp only
  refine ExtRel.bind_pure (parseBaseTok eTok) _ _ ?_
  intro eb
  cases r4 with
  | nil => exact Or.inl rfl
  | cons t rest =>
      rw [show (t :: rest) ++ l₂ = t :: (rest ++ l₂) from rfl]
      try simp only
      split
      · exact rfl
      · exact rfl

theorem collectUntilMovements_ext (l l₂ : List String) :
    ExtRel (collectUntilMovements l) (collectUntilMovements (l ++ l₂)) l₂ := by
  induction l with
  | nil => exact Or.inl rfl
  | cons t ts ih =>
      rw [show (t :: ts) ++ l₂ = t :: (ts ++ l₂) from rfl]
      rw [collectUntilMovements, collectUntilMovements]
      split
      · exact rfl
      · cases hs : collectUntilMovements ts with
        | ok p =>
            obtain ⟨c, r⟩ := p
            rw [hs] at ih
            rw [show collectUntilMovements (ts ++ l₂) = .ok (c, r ++ l₂)
              from ih]
            exact rfl
        | error e =>
            rw [hs] at ih
            rcases ih with ih | ih
            · exact Or.inl ih
            · rw [ih]
              exact ExtRel.err_refl e l₂

theorem movementsLoopExtAux (n : Nat) :
    ∀ (l l₂ : List String), l.length ≤ n →
      ExtRel (movementsLoop l) (movementsLoop (l ++ l₂)) l₂ := by
  induction n with
  | zero =>
      intro l l₂ hlen
      match l with
      | [] =>
          rw [show movementsLoop [] = .error .endOfStream from by
            rw [movementsLoop.eq_def]]
          exact Or.inl rfl
      | t :: ts => simp at hlen
  | succ n ih =>
      intro l l₂ hlen
      match l with
      | [] =>
          rw [show movementsLoop [] = .error .endOfStream from by
            rw [movementsLoop.eq_def]]
          exact Or.inl rfl
      | t :: ts =>
          rw [show (t :: ts) ++ l₂ = t :: (ts ++ l₂) from rfl]
          rw [movementsLoop.eq_def]
          rw [movementsLoop.eq_def (t :: (ts ++ l₂))]
          try simp only
          split
          · exact rfl
          · have hmv := movement_ext (t :: ts) l₂
            rw [show (t :: ts) ++ l₂ = t :: (ts ++ l₂) from rfl] at hmv
            cases hs : Movement.from_tokens (t :: ts) with
            | ok p =>
                obtain ⟨m, rest⟩ := p
                rw [hs] at hmv
                rw [show Movement.from_tokens (t :: (ts ++ l₂)) =
                  .ok (m, rest ++ l₂) from hmv]
                try simp only
                have hc := movement_consumes hs
                have hrec := ih rest l₂ (by simp at hlen hc ⊢; omega)
                cases hm : movementsLoop rest with
                | ok q =>
                    obtain ⟨ms, r⟩ := q
                    rw [hm] at hrec
                    rw [show movementsLoop (rest ++ l₂) =
                      .ok (ms, r ++ l₂) from hrec]
                    exact rfl
                | error e =>
                    rw [hm] at hrec
                    rcases hrec with hrec | hrec
                    · exact Or.inl hrec
                    · rw [hrec]
                      exact ExtRel.err_refl e l₂
            | error e =>
                rw [hs] at hmv
                rcases hmv with hmv | hmv
                · exact Or.inl hmv
                · rw [hmv]
                  exact ExtRel.err_refl e l₂

theorem movementsLoop_ext (l l₂ : List String) :
    ExtRel (movementsLoop l) (movementsLoop (l ++ l₂)) l₂ :=
  movementsLoopExtAux l.length l l₂ le_rfl

theorem playContents_ext (l l₂ : List String) :
    ExtRel (PlayContents.from_tokens l) (PlayContents.from_tokens (l ++ l₂))
      l₂ := by
  rw [PlayContents.from_tokens, PlayContents.from_tokens]
  refine ExtRel.bind (collectUntilMovements_ext l l₂) _ ?_
  intro ctx r
  try simp only
  refine ExtRel.bind_pure (contentLoop ctx {}) _ _ ?_
  intro contents
  refine ExtRel.bind (popTok_ext r l₂) _ ?_
  intro mt r2
  try simp only
  split
  · exact ExtRel.err_refl _ l₂
  · have hml := movementsLoop_ext r2 l₂
    cases hs : movementsLoop r2 with
    | ok p =>
        obtain ⟨ms, r3⟩ := p
        rw [hs] at hml
        rw [show movementsLoop (r2 ++ l₂) = .ok (ms, r3 ++ l₂) from hml]
        exact rfl
    | error e =>
        rw [hs] at hml
        rcases hml with hml | hml
        · exact Or.inl hml
        · rw [hml]
          exact ExtRel.err_refl e l₂

theorem playTypeScan_ext (l l₂ : List String) :
    ExtRel (playTypeScan l) (playTypeScan (l ++ l₂)) l₂ := by
  induction l with
  | nil => exact Or.inl rfl
  | cons t ts ih =>
      rw [show (t :: ts) ++ l₂ = t :: (ts ++ l₂) from rfl]
      rw [playTypeScan, playTypeScan]
      split
      · exact rfl
      · cases hs : playTypeScan ts with
        | ok p =>
            obtain ⟨c, r⟩ := p
            rw [hs] at ih
            rw [show playTypeScan (ts ++ l₂) = .ok (c, r ++ l₂) from ih]
            exact rfl
        | error e =>
            rw [hs] at ih
            rcases ih with ih | ih
            · exact Or.inl ih
            · rw [ih]
              exact ExtRel.err_refl e l₂

theorem play_ext (l l₂ : List String) :
    ExtRel (Play.from_tokens l) (Play.from_tokens (l ++ l₂)) l₂ := by
  rw [Play.from_tokens, Play.from_tokens]
  refine ExtRel.bind (popTok_ext l l₂) _ ?_
  intro pt r
  try simp only
  split
  · exact ExtRel.err_refl _ l₂
  · refine ExtRel.bind (playTypeScan_ext r l₂) _ ?_
    intro tyToks r2
    try simp only
    cases hty : PlayType.from_text (joinSpace tyToks) with
    | none => exact ExtRel.err_refl _ l₂
    | some ty =>
        try simp only
        split
        · exact rfl
        · have hpc := playContents_ext r2 l₂
          cases hs : PlayContents.from_tokens r2 with
          | ok p =>
              obtain ⟨c, r3⟩ := p
              rw [hs] at hpc
              rw [show PlayContents.from_tokens (r2 ++ l₂) =
                .ok (c, r3 ++ l₂) from hpc]
              exact rfl
          | error e =>
              rw [hs] at hpc
              rcases hpc with hpc | hpc
              · exact Or.inl hpc
              · rw [hpc]
                exact ExtRel.err_refl e l₂

theorem playerNameScan_ext (l l₂ : List String) :
    ExtRel (playerNameScan l) (playerNameScan (l ++ l₂)) l₂ := by
  induction l with
  | nil => exact Or.inl rfl
  | cons t ts ih =>
      rw [show (t :: ts) ++ l₂ = t :: (ts ++ l₂) from rfl]
      rw [playerNameScan, playerNameScan]
      split
      · exact rfl
      · cases hs : playerNameScan ts with
        | ok p =>
            obtain ⟨c, r⟩ := p
            rw [hs] at ih
            rw [show playerNameScan (ts ++ l₂) = .ok (c, r ++ l₂) from ih]
            exact rfl
        | error e =>
            rw [hs] at ih
            rcases ih with ih | ih
            · exact Or.inl ih
            · rw [ih]
              exact ExtRel.err_refl e l₂

theorem player_ext (l l₂ : List String) :
    ExtRel (Player.from_tokens l) (Player.from_tokens (l ++ l₂)) l₂ := by
  rw [Player.from_tokens, Player.from_tokens]
  refine ExtRel.bind (popTok_ext l l₂) _ ?_
  intro posTok r
  try simp only
  split
  · exact ExtRel.err_refl _ l₂
  · cases hps : Position.fromValue (stripBrackets posTok) with
    | none => exact ExtRel.err_refl _ l₂
    | some position =>
        try simp only
        refine ExtRel.bind (playerNameScan_ext r l₂) _ ?_
        intro nm r2
        exact rfl

theorem playersLoopExtAux (n : Nat) :
    ∀ (l l₂ : List String), l.length ≤ n →
      ExtRel (playersLoop l) (playersLoop (l ++ l₂)) l₂ := by
  induction n with
  | zero =>
      intro l l₂ hlen
      match l with
      | [] =>
          rw [show playersLoop [] = .error .endOfStream from by
            rw [playersLoop.eq_def]]
          exact Or.inl rfl
      | t :: ts => simp at hlen
  | succ n ih =>
      intro l l₂ hlen
      match l with
      | [] =>
          rw [show playersLoop [] = .error .endOfStream from by
            rw [playersLoop.eq_def]]
          exact Or.inl rfl
      | t :: ts =>
          rw [show (t :: ts) ++ l₂ = t :: (ts ++ l₂) from rfl]
          rw [playersLoop.eq_def]
          rw [playersLoop.eq_def (t :: (ts ++ l₂))]
          try simp only
          split
          · exact rfl
          · have hmv := player_ext (t :: ts) l₂
            rw [show (t :: ts) ++ l₂ = t :: (ts ++ l₂) from rfl] at hmv
            cases hs : Player.from_tokens (t :: ts) with
            | ok p =>
                obtain ⟨m, rest⟩ := p
                rw [hs] at hmv
                rw [show Player.from_tokens (t :: (ts ++ l₂)) =
                  .ok (m, rest ++ l₂) from hmv]
                try simp only
                have hc := player_consumes hs
                have hrec := ih rest l₂ (by simp at hlen hc ⊢; omega)
                cases hm : playersLoop rest with
                | ok q =>
                    obtain ⟨ms, r⟩ := q
                    rw [hm] at hrec
                    rw [show playersLoop (rest ++ l₂) =
                      .ok (ms, r ++ l₂) from hrec]
                    exact rfl
                | error e =>
                    rw [hm] at hrec
                    rcases hrec with hrec | hrec
                    · exact Or.inl hrec
                    · rw [hrec]
                      exact ExtRel.err_refl e l₂
            | error e =>
                rw [hs] at hmv
                rcases hmv with hmv | hmv
                · exact Or.inl hmv
                · rw [hmv]
                  exact ExtRel.err_refl e l₂

theorem playersLoop_ext (l l₂ : List String) :
    ExtRel (playersLoop l) (playersLoop (l ++ l₂)) l₂ :=
  playersLoopExtAux l.length l l₂ le_rfl

theorem team_ext (l l₂ : List String) :
    ExtRel (Team.from_tokens l) (Team.from_tokens (l ++ l₂)) l₂ := by
  rw [Team.from_tokens, Team.from_tokens]
  refine ExtRel.bind (popTok_ext l l₂) _ ?_
  intro teamTok r
  try simp only
  split
  · exact ExtRel.err_refl _ l₂
  · refine ExtRel.bind (popTok_ext r l₂) _ ?_
    intro idTok r2
    try simp only
    cases hid : pyInt? idTok with
    | none => exact ExtRel.err_refl _ l₂
    | some teamId =>
        try simp only
        have hpl := playersLoop_ext r2 l₂
        cases hs : playersLoop r2 with
        | ok p =>
            obtain ⟨ps, r3⟩ := p
            rw [hs] at hpl
            rw [show playersLoop (r2 ++ l₂) = .ok (ps, r3 ++ l₂) from hpl]
            exact rfl
        | error e =>
            rw [hs] at hpl
            rcases hpl with hpl | hpl
            · exact Or.inl hpl
            · rw [hpl]
              exact ExtRel.err_refl e l₂

theorem weatherCondScan_ext (l l₂ : List String) :
    ExtRel (weatherCondScan l) (weatherCondScan (l ++ l₂)) l₂ := by
  induction l with
  | nil => exact Or.inl rfl
  | cons t ts ih =>
      rw [show (t :: ts) ++ l₂ = t :: (ts ++ l₂) from rfl]
      rw [weatherCondScan, weatherCondScan]
      split
      · exact rfl
      · cases hs : weatherCondScan ts with
        | ok p =>
            obtain ⟨c, r⟩ := p
            rw [hs] at ih
            rw [show weatherCondScan (ts ++ l₂) = .ok (c, r ++ l₂) from ih]
            exact rfl
        | error e =>
            rw [hs] at ih
            rcases ih with ih | ih
            · exact Or.inl ih
            · rw [ih]
              exact ExtRel.err_refl e l₂

theorem weather_ext (l l₂ : List String) :
    ExtRel (Weather.from_tokens l) (Weather.from_tokens (l ++ l₂)) l₂ := by
  rw [Weather.from_tokens, Weather.from_tokens]
  refine ExtRel.bind (popTok_ext l l₂) _ ?_
  intro wTok r
  try simp only
  split
  · exact ExtRel.err_refl _ l₂
  · refine ExtRel.bind (weatherCondScan_ext r l₂) _ ?_
    intro condToks r2
    try simp only
    refine ExtRel.bind (popTok_ext r2 l₂) _ ?_
    intro tTok r3
    try simp only
    cases ht : pyInt? tTok with
    | none => exact ExtRel.err_refl _ l₂
    | some temperature =>
        try simp only
        refine ExtRel.bind (popTok_ext r3 l₂) _ ?_
        intro sTok r4
        try simp only
        cases hw : pyInt? sTok with
        | none => exact ExtRel.err_refl _ l₂
        | some windSpeed => exact rfl

theorem venueScan_ext (l l₂ : List String) :
    ExtRel (venueScan l) (venueScan (l ++ l₂)) l₂ := by
  induction l with
  | nil => exact Or.inl rfl
  | cons t ts ih =>
      rw [show (t :: ts) ++ l₂ = t :: (ts ++ l₂) from rfl]
      rw [venueScan, venueScan]
      split
      · exact rfl
      · cases hs : venueScan ts with
        | ok p =>
            obtain ⟨c, r⟩ := p
            rw [hs] at ih
            rw [show venueScan (ts ++ l₂) = .ok (c, r ++ l₂) from ih]
            exact rfl
        | error e =>
            rw [hs] at ih
            rcases ih with ih | ih
            · exact Or.inl ih
            · rw [ih]
              exact ExtRel.err_refl e l₂

theorem gameContext_ext (l l₂ : List String) :
    ExtRel (GameContext.from_tokens l) (GameContext.from_tokens (l ++ l₂))
      l₂ := by
  rw [GameContext.from_tokens, GameContext.from_tokens]
  refine ExtRel.bind (popTok_ext l l₂) _ ?_
  intro gTok r
  try simp only
  split
  · exact ExtRel.err_refl _ l₂
  · refine ExtRel.bind (popTok_ext r l₂) _ ?_
    intro pkTok r2
    try simp only
    cases hpk : pyInt? pkTok with
    | none => exact ExtRel.err_refl _ l₂
    | some gamePk =>
        try simp only
        refine ExtRel.bind (popTok_ext r2 l₂) _ ?_
        intro dTok r3
        try simp only
        split
        · exact ExtRel.err_refl _ l₂
        · refine ExtRel.bind (popTok_ext r3 l₂) _ ?_
          intro date r4
          try simp only
          refine ExtRel.bind (popTok_ext r4 l₂) _ ?_
          intro vTok r5
          try simp only
          split
          · exact ExtRel.err_refl _ l₂
          · refine ExtRel.bind (venueScan_ext r5 l₂) _ ?_
            intro venueToks r6
            try simp only
            refine ExtRel.bind (weather_ext r6 l₂) _ ?_
            intro weather r7
            try simp only
            refine ExtRel.bind (team_ext r7 l₂) _ ?_
            intro homeTeam r8
            try simp only
            refine ExtRel.bind (team_ext r8 l₂) _ ?_
            intro awayTeam r9
            exact rfl

theorem playsLoopExtAux (n : Nat) :
    ∀ (l l₂ : List String), l.length ≤ n →
      ExtRel (playsLoop l) (playsLoop (l ++ l₂)) l₂ := by
  induction n with
  | zero =>
      intro l l₂ hlen
      match l with
      | [] =>
          rw [show playsLoop [] = .error .endOfStream from by
            rw [playsLoop.eq_def]]
          exact Or.inl rfl
      | t :: ts => simp at hlen
  | succ n ih =>
      intro l l₂ hlen
      match l with
      | [] =>
          rw [show playsLoop [] = .error .endOfStream from by
            rw [playsLoop.eq_def]]
          exact Or.inl rfl
      | t :: ts =>
          rw [show (t :: ts) ++ l₂ = t :: (ts ++ l₂) from rfl]
          rw [playsLoop.eq_def]
          rw [playsLoop.eq_def (t :: (ts ++ l₂))]
          try simp only
          split
          · exact rfl
          · have hmv := play_ext (t :: ts) l₂
            rw [show (t :: ts) ++ l₂ = t :: (ts ++ l₂) from rfl] at hmv
            cases hs : Play.from_tokens (t :: ts) with
            | ok p =>
                obtain ⟨m, rest⟩ := p
                rw [hs] at hmv
                rw [show Play.from_tokens (t :: (ts ++ l₂)) =
                  .ok (m, rest ++ l₂) from hmv]
                try simp only
                have hc := play_consumes hs
                have hrec := ih rest l₂ (by simp at hlen hc ⊢; omega)
                cases hm : playsLoop rest with
                | ok q =>
                    obtain ⟨ms, r⟩ := q
                    rw [hm] at hrec
                    rw [show playsLoop (rest ++ l₂) =
                      .ok (ms, r ++ l₂) from hrec]
                    exact rfl
                | error e =>
                    rw [hm] at hrec
                    rcases hrec with hrec | hrec
                    · exact Or.inl hrec
                    · rw [hrec]
                      exact ExtRel.err_refl e l₂
            | error e =>
                rw [hs] at hmv
                rcases hmv with hmv | hmv
                · exact Or.inl hmv
                · rw [hmv]
                  exact ExtRel.err_refl e l₂

theorem playsLoop_ext (l l₂ : List String) :
    ExtRel (playsLoop l) (playsLoop (l ++ l₂)) l₂ :=
  playsLoopExtAux l.length l l₂ le_rfl

theorem game_ext (l l₂ : List String) :
    ExtRel (Game.from_tokens l) (Game.from_tokens (l ++ l₂)) l₂ := by
  rw [Game.from_tokens, Game.from_tokens]
  refine ExtRel.bind (gameContext_ext l l₂) _ ?_
  intro context r
  try simp only
  refine ExtRel.bind (popTok_ext r l₂) _ ?_
  intro gsTok r2
  try simp only
  split
  · exact ExtRel.err_refl _ l₂
  · have hpl := playsLoop_ext r2 l₂
    cases hs : playsLoop r2 with
    | ok p =>
        obtain ⟨ps, r3⟩ := p
        rw [hs] at hpl
        rw [show playsLoop (r2 ++ l₂) = .ok (ps, r3 ++ l₂) from hpl]
        exact rfl
    | error e =>
        rw [hs] at hpl
        rcases hpl with hpl | hpl
        · exact Or.inl hpl
        · rw [hpl]
          exact ExtRel.err_refl e l₂

theorem playsLoopHeadAux (n : Nat) :
    ∀ (ts : List String) {ps : List Play} {r : List String},
      ts.length ≤ n → playsLoop ts = .ok (ps, r) →
      ∃ r2, r = "[GAME_END]" :: r2 := by
  induction n with
  | zero =>
      intro ts ps r hlen h
      match ts with
      | [] => simp [playsLoop] at h
      | t :: ts' => simp at hlen
  | succ n ih =>
      intro ts ps r hlen h
      match ts with
      | [] => simp [playsLoop] at h
      | t :: ts' =>
          rw [playsLoop.eq_def] at h
          try simp only at h
          split at h
          · simp only [Except.ok.injEq, Prod.mk.injEq] at h
            obtain ⟨-, h2⟩ := h
            rename_i hstop
            exact ⟨ts', by rw [← h2, hstop]⟩
          · cases hpl : Play.from_tokens (t :: ts') with
            | error e => rw [hpl] at h; simp at h
            | ok q =>
                obtain ⟨p0, rest⟩ := q
                rw [hpl] at h
                try simp only at h
                cases hll : playsLoop rest with
                | error e => rw [hll] at h; simp at h
                | ok q2 =>
                    obtain ⟨ps', r'⟩ := q2
                    rw [hll] at h
                    try simp only at h
                    simp only [Except.ok.injEq, Prod.mk.injEq] at h
                    obtain ⟨-, h2⟩ := h
                    subst h2
                    have hc := play_consumes hpl
                    exact ih rest (by simp at hlen hc ⊢; omega) hll

/-- A successful `Game.from_tokens` always stops with `[GAME_END]` as the
first unconsumed token: the plays loop returns at `[GAME_END]` without
consuming it, and nothing after the loop consumes anything. -/
theorem Game_rest_head {ts : List String} {g : Game} {rest : List String}
    (h : Game.from_tokens ts = .ok (g, rest)) :
    ∃ r2, rest = "[GAME_END]" :: r2 := by
  rw [Game.from_tokens] at h
  rw [except_bind_ok] at h
  obtain ⟨⟨ctx, ts1⟩, hctx, h⟩ := h
  try simp only at h
  rw [except_bind_ok] at h
  obtain ⟨⟨gs, ts2⟩, hpop, h⟩ := h
  try simp only at h
  split at h
  · simp at h
  · cases hpl : playsLoop ts2 with
    | error e => rw [hpl] at h; simp at h
    | ok q =>
        obtain ⟨ps, r⟩ := q
        rw [hpl] at h
        try simp only at h
        simp only [Except.ok.injEq, Prod.mk.injEq] at h
        obtain ⟨-, h2⟩ := h
        subst h2
        exact playsLoopHeadAux ts2.length ts2 le_rfl hpl

/-- C4 (amended): `Game.from_tokens` never consumes the `[GAME_END]`
marker and never inspects the tokens after the point where it stops:
appending arbitrary extra tokens to a successfully parsed token list
leaves the parse successful with the same `Game` and the extra tokens
appended to the unconsumed rest.  In particular a token appended after a
well-formed transcript's `[GAME_END]` never makes the parse fail (see the
counterexample). -/
theorem c4_trailing_tokens_accepted (ts extra : List String) (g : Game)
    (rest : List String) (h : Game.from_tokens ts = .ok (g, rest)) :
    Game.from_tokens (ts ++ extra) = .ok (g, rest ++ extra) := by
  have hx := game_ext ts extra
  rw [h] at hx
  exact hx

/-- C4 witness: the trailing-token theorem applied to a concrete
well-formed transcript extended with an extra token. -/
theorem c4_witness :
    Game.from_tokens (sampleGame.render ++ ["extra"]) =
      .ok (sampleGame.toGame, ["[GAME_END]"] ++ ["extra"]) :=
  c4_trailing_tokens_accepted sampleGame.render ["extra"] sampleGame.toGame
    ["[GAME_END]"] (Game_render_full (by decide))

/-- C4 counterexample: a well-formed transcript with a junk token after its
`[GAME_END]` parses successfully (with the junk token left unconsumed),
refuting "the parse fails with a trailing-tokens error; it never
succeeds". -/
theorem c4_counterexample :
    Game.from_tokens (advisoryEndGame.render ++ ["junk"]) =
      .ok (advisoryEndGame.toGame, ["[GAME_END]", "junk"]) := by
  have hre : advisoryEndGame.render ++ ["junk"] =
      advisoryEndGame.ctx.render ++ "[GAME_START]" ::
        ((advisoryEndGame.plays.map PlaySpec.render).flatten ++
          "[GAME_END]" :: ["junk"]) := by
    simp [GameSpec.render]
  rw [hre]
  have hv : advisoryEndGame.Valid := by decide
  exact Game_render ⟨hv.1, hv.2.1, hv.2.2⟩ ["junk"]

/-- C5 (confirmed): truncating a successfully parsed token list anywhere
within its consumed portion (in particular: truncating a well-formed
transcript before its final `[GAME_END]` token) makes the parse fail with
an end-of-stream error — it never succeeds with a partial `Game`. -/
theorem c5_truncation_fails (ts : List String) (g : Game)
    (rest : List String) (k : Nat) (h : Game.from_tokens ts = .ok (g, rest))
    (hk : k + rest.length ≤ ts.length) :
    Game.from_tokens (ts.take k) = .error .endOfStream := by
  have hx := game_ext (ts.take k) (ts.drop k)
  cases hres : Game.from_tokens (ts.take k) with
  | error e =>
      rw [hres] at hx
      rcases hx with hx | hx
      · rw [hx]
      · rw [List.take_append_drop, h] at hx
        simp at hx
  | ok p =>
      obtain ⟨g', r'⟩ := p
      rw [hres] at hx
      have hx2 : Game.from_tokens (ts.take k ++ ts.drop k) =
          .ok (g', r' ++ ts.drop k) := hx
      rw [List.take_append_drop, h] at hx2
      simp only [Except.ok.injEq, Prod.mk.injEq] at hx2
      obtain ⟨-, h2⟩ := hx2
      obtain ⟨r2, hr2⟩ := Game_rest_head hres
      exfalso
      have hlen : rest.length = r'.length + (ts.length - k) := by
        rw [h2]
        simp
      have hP : 1 ≤ r'.length := by rw [hr2]; simp
      omega

/-- C5 witness: the truncation theorem applied to a concrete well-formed
transcript, cut five tokens in. -/
theorem c5_witness :
    Game.from_tokens (advisoryEndGame.render.take 5) =
      .error .endOfStream :=
  c5_truncation_fails advisoryEndGame.render advisoryEndGame.toGame
    ["[GAME_END]"] 5 (Game_render_full (by decide)) (by decide)

/-!  ## The regex implementation (`src/interpret/parse_game.py`)

`Parser` of `src/interpret/parse_game.py` re-implements the grammar
directly on the text with anchored regular-expression matches.  The
embedding works on `List Char`; each regex pattern used by the source is
embedded as an `RPat`: a prefix-match-length function together with a
soundness fact (a match is non-empty and no longer than the input), which
is exactly what the source's patterns satisfy and what the loops need for
termination.  Error messages are abstracted to a tag naming the pattern
("ValueError" carries no structure the claims depend on). -/

theorem dropWhileLen {α : Type} (p : α → Bool) (l : List α) :
    (l.dropWhile p).length ≤ l.length := by
  induction l with
  | nil => simp
  | cons c cs ih =>
      rw [List.dropWhile_cons]
      split
      · exact Nat.le_succ_of_le ih
      · simp

theorem takeWhileLen {α : Type} (p : α → Bool) (l : List α) :
    (l.takeWhile p).length ≤ l.length := by
  induction l with
  | nil => simp
  | cons c cs ih =>
      rw [List.takeWhile_cons]
      split
      · simpa using ih
      · simp

/-- Python `str.strip()`: remove leading and trailing whitespace. -/
def pyStrip (l : List Char) : List Char :=
  ((l.dropWhile isSpaceChar).reverse.dropWhile isSpaceChar).reverse

theorem pyStrip_le (l : List Char) : (pyStrip l).length ≤ l.length := by
  have h1 := dropWhileLen isSpaceChar l
  have h2 := dropWhileLen isSpaceChar (l.dropWhile isSpaceChar).reverse
  simp only [List.length_reverse] at h2
  simp only [pyStrip, List.length_reverse]
  omega

/-- The `ValueError` raised by `Parser.__match` / `__match_until` /
`Parser.parse`, abstracted to a tag naming the expected pattern. -/
inductive RErr where
  | valueError (pat : String)
deriving DecidableEq

/-- An anchored regex pattern as used by `Parser.__match`: the length of
the match at the start of the text, if any.  `sound` records that a match
consumes at least one and at most all characters (true of every pattern
the source uses), which the `while` loops need for termination. -/
structure RPat where
  pat : String
  matchAt : List Char → Option Nat
  sound : ∀ l n, matchAt l = some n → 1 ≤ n ∧ n ≤ l.length

/-- A literal pattern such as `\[TEAM\]` or `->`. -/
def litP (s : String) : RPat where
  pat := s
  matchAt := fun l =>
    if s.data ≠ [] ∧ s.data.isPrefixOf l then some s.data.length else none
  sound := by
    intro l n h
    try simp only at h
    split at h
    · rename_i hc
      simp only [Option.some.injEq] at h
      subst h
      refine ⟨?_, (List.isPrefixOf_iff_prefix.mp hc.2).length_le⟩
      cases hd : s.data with
      | nil => exact absurd hd hc.1
      | cons a as => simp [hd]
    · simp at h

/-- The pattern `\d+`: a maximal non-empty digit run. -/
def digitsP : RPat where
  pat := "digit-run"
  matchAt := fun l =>
    if (l.takeWhile Char.isDigit).length = 0 then none
    else some (l.takeWhile Char.isDigit).length
  sound := by
    intro l n h
    try simp only at h
    split at h
    · simp at h
    · rename_i hc
      simp only [Option.some.injEq] at h
      subst h
      exact ⟨by omega, takeWhileLen _ _⟩

/-- The pattern `\d{4}-\d{2}-\d{2}` used for the date. -/
def isoDateP : RPat where
  pat := "iso-date"
  matchAt := fun l =>
    if 10 ≤ l.length ∧ (l.take 4).all Char.isDigit ∧ l.get? 4 = some '-' ∧
        ((l.drop 5).take 2).all Char.isDigit ∧ l.get? 7 = some '-' ∧
        ((l.drop 8).take 2).all Char.isDigit
    then some 10 else none
  sound := by
    intro l n h
    try simp only at h
    split at h
    · rename_i hc
      simp only [Option.some.injEq] at h
      subst h
      exact ⟨by omega, hc.1⟩
    · simp at h

/-- The pattern `home|\d`: the literal `home`, otherwise a single digit. -/
def homeDigitP : RPat where
  pat := "home-or-digit"
  matchAt := fun l =>
    if "home".data.isPrefixOf l then some 4
    else if l.head?.any Char.isDigit then some 1 else none
  sound := by
    intro l n h
    try simp only at h
    split at h
    · rename_i hc
      simp only [Option.some.injEq] at h
      subst h
      have hle : 4 ≤ l.length := (List.isPrefixOf_iff_prefix.mp hc).length_le
      exact ⟨by omega, by omega⟩
    · split at h
      · rename_i hc2
        simp only [Option.some.injEq] at h
        subst h
        refine ⟨le_refl 1, ?_⟩
        cases l with
        | nil => simp at hc2
        | cons a as => simp
      · simp at h

/-- `ALL_POSITION_TOKENS` of `src/interpret/parse_game.py` (tuple order =
alternation order of `ALL_POSITION_TOKENS_PATTERN`). -/
def RX_ALL_POSITION_TOKENS : List String :=
  ["[PITCHER]", "[CATCHER]", "[FIRST_BASE]", "[SECOND_BASE]",
   "[THIRD_BASE]", "[SHORTSTOP]", "[LEFT_FIELD]", "[CENTER_FIELD]",
   "[RIGHT_FIELD]", "[DESIGNATED_HITTER]", "[PINCH_HITTER]",
   "[PINCH_RUNNER]", "[TWO_WAY_PLAYER]", "[OUTFIELD]", "[INFIELD]",
   "[UTILITY]", "[RELIEF_PITCHER]", "[STARTING_PITCHER]"]

/-- `ALL_POSITION_TOKENS_PATTERN`: the alternation of all position tokens;
a regex alternation takes the first alternative that matches. -/
def posTokP : RPat where
  pat := "position-token"
  matchAt := fun l =>
    match RX_ALL_POSITION_TOKENS.find?
        (fun t => decide (t.data ≠ []) && t.data.isPrefixOf l) with
    | some t => some t.data.length
    | none => none
  sound := by
    intro l n h
    try simp only at h
    cases hf : RX_ALL_POSITION_TOKENS.find?
        (fun t => decide (t.data ≠ []) && t.data.isPrefixOf l) with
    | none => rw [hf] at h; simp at h
    | some t =>
        rw [hf] at h
        simp only [Option.some.injEq] at h
        subst h
        have hp := List.find?_some hf
        simp only [Bool.and_eq_true, decide_eq_true_eq] at hp
        obtain ⟨hne, hpre⟩ := hp
        refine ⟨?_, (List.isPrefixOf_iff_prefix.mp hpre).length_le⟩
        have := List.length_pos.mpr hne
        omega

/-- The pattern `\[`: a single opening bracket. -/
def bracketP : RPat where
  pat := "open-bracket"
  matchAt := fun l => if l.head? = some '[' then some 1 else none
  sound := by
    intro l n h
    try simp only at h
    split at h
    · rename_i hc
      simp only [Option.some.injEq] at h
      subst h
      refine ⟨le_refl 1, ?_⟩
      cases l with
      | nil => simp at hc
      | cons a as => simp
    · simp at h

/-- The pattern `\[[A-Z]`: an opening bracket followed by a capital. -/
def bracketUpperP : RPat where
  pat := "bracket-upper"
  matchAt := fun l =>
    if l.head? = some '[' ∧
        (l.drop 1).head?.any (fun c => decide ('A' ≤ c) && decide (c ≤ 'Z'))
    then some 2 else none
  sound := by
    intro l n h
    try simp only at h
    split at h
    · rename_i hc
      simp only [Option.some.injEq] at h
      subst h
      obtain ⟨h1, h2⟩ := hc
      refine ⟨by omega, ?_⟩
      cases l with
      | nil => simp at h1
      | cons a as =>
          cases as with
          | nil => simp at h2
          | cons b bs => simp
    · simp at h

/-- `Parser.__match`: the anchored pattern must match at the start of the
text; returns the matched token and the remaining text, both stripped. -/
def rxMatch (P : RPat) (text : List Char) :
    Except RErr (List Char × List Char) :=
  match P.matchAt text with
  | some n => .ok (pyStrip (text.take n), pyStrip (text.drop n))
  | none => .error (.valueError P.pat)

/-- `Parser.__skip`: `__match` discarding the token. -/
def rxSkip (P : RPat) (text : List Char) : Except RErr (List Char) :=
  match rxMatch P text with
  | .ok (_, rest) => .ok rest
  | .error e => .error e

/-- Position of the first suffix where `P` matches (`0` = the list
itself), as scanned by the lazy `.+?(?=P)`. -/
def scanPos (P : List Char → Option Nat) : List Char → Option Nat
  | [] => none
  | c :: cs =>
      if (P (c :: cs)).isSome then some 0
      else (scanPos P cs).map (fun j => j + 1)

/-- `Parser.__match_until`: `^.+?(?=pattern)` with `DOTALL` — the shortest
non-empty prefix after which the pattern matches; both parts stripped. -/
def rxMatchUntil (P : RPat) (text : List Char) :
    Except RErr (List Char × List Char) :=
  match scanPos P.matchAt (text.drop 1) with
  | some j => .ok (pyStrip (text.take (j + 1)), pyStrip (text.drop (j + 1)))
  | none => .error (.valueError P.pat)

theorem rxMatch_lt {P : RPat} {text tok rest : List Char}
    (h : rxMatch P text = .ok (tok, rest)) : rest.length < text.length := by
  rw [rxMatch] at h
  cases hm : P.matchAt text with
  | none => rw [hm] at h; simp at h
  | some n =>
      rw [hm] at h
      simp only [Except.ok.injEq, Prod.mk.injEq] at h
      obtain ⟨-, h2⟩ := h
      subst h2
      obtain ⟨h1, hle⟩ := P.sound text n hm
      have hp := pyStrip_le (text.drop n)
      have hd : (text.drop n).length = text.length - n := by simp
      omega

theorem rxSkip_lt {P : RPat} {text rest : List Char}
    (h : rxSkip P text = .ok rest) : rest.length < text.length := by
  rw [rxSkip] at h
  cases hm : rxMatch P text with
  | error e => rw [hm] at h; simp at h
  | ok p =>
      obtain ⟨tok, r⟩ := p
      rw [hm] at h
      simp only [Except.ok.injEq] at h
      subst h
      exact rxMatch_lt hm

theorem scanPos_lt {P : List Char → Option Nat} :
    ∀ {l : List Char} {j : Nat}, scanPos P l = some j → j < l.length := by
  intro l
  induction l with
  | nil => intro j h; simp [scanPos] at h
  | cons c cs ih =>
      intro j h
      rw [scanPos] at h
      split at h
      · simp only [Option.some.injEq] at h
        subst h
        simp
      · cases hs : scanPos P cs with
        | none => rw [hs] at h; simp at h
        | some j2 =>
            rw [hs] at h
            simp only [Option.map_some', Option.some.injEq] at h
            subst h
            have := ih hs
            simp
            omega

theorem rxMatchUntil_lt {P : RPat} {text tok rest : List Char}
    (h : rxMatchUntil P text = .ok (tok, rest)) :
    rest.length < text.length := by
  rw [rxMatchUntil] at h
  cases hs : scanPos P.matchAt (text.drop 1) with
  | none => rw [hs] at h; simp at h
  | some j =>
      rw [hs] at h
      simp only [Except.ok.injEq, Prod.mk.injEq] at h
      obtain ⟨-, h2⟩ := h
      subst h2
      have hj := scanPos_lt hs
      have hd1 : (text.drop 1).length = text.length - 1 := by simp
      have hp := pyStrip_le (text.drop (j + 1))
      have hd : (text.drop (j + 1)).length = text.length - (j + 1) := by simp
      omega

/-- Python `text.split(", ")` (state: remaining text, accumulated field in
reverse). -/
def splitCommaSpaceGo : List Char → List Char → List (List Char)
  | [], cur => [cur.reverse]
  | c :: rest, cur =>
      if c = ',' ∧ rest.head? = some ' ' then
        cur.reverse :: splitCommaSpaceGo rest.tail []
      else splitCommaSpaceGo rest (c :: cur)
termination_by l _ => l.length
decreasing_by
  all_goals (simp [List.length_tail]; try omega)

/-- Python `text.split(", ")`. -/
def splitCommaSpace (l : List Char) : List (List Char) :=
  splitCommaSpaceGo l []

/-- `Parser.__parse_player`. -/
def rxParsePlayer (text : List Char) : Except RErr (Player × List Char) := do
  let (positionToken, text) ← rxMatch posTokP text
  match Position.fromValue (stripBrackets (String.mk positionToken)) with
  | none => .error (.valueError "position")
  | some position => do
    let (name, text) ← rxMatchUntil bracketP text
    .ok (⟨String.mk name, position⟩, text)

theorem rxParsePlayer_lt {text : List Char} {p : Player}
    {rest : List Char} (h : rxParsePlayer text = .ok (p, rest)) :
    rest.length < text.length := by
  rw [rxParsePlayer] at h
  rw [except_bind_ok] at h
  obtain ⟨⟨posTok, a1⟩, k1, h⟩ := h
  try simp only at h
  cases hps : Position.fromValue (stripBrackets (String.mk posTok)) with
  | none => rw [hps] at h; simp at h
  | some position =>
      rw [hps] at h
      try simp only at h
      rw [except_bind_ok] at h
      obtain ⟨⟨nm, a2⟩, k2, h⟩ := h
      try simp only at h
      simp only [Except.ok.injEq, Prod.mk.injEq] at h
      obtain ⟨-, h2⟩ := h
      subst h2
      have m1 := rxMatch_lt k1
      have m2 := rxMatchUntil_lt k2
      omega

/-- The player loop of `Parser.__parse_team`:
`while not text.startswith("[TEAM]") and not text.startswith("[GAME_START]")`. -/
def rxPlayersLoop (text : List Char) :
    Except RErr (List Player × List Char) :=
  if "[TEAM]".data.isPrefixOf text ∨ "[GAME_START]".data.isPrefixOf text then
    .ok ([], text)
  else
    match h : rxParsePlayer text with
    | .error e => .error e
    | .ok (p, rest) =>
      match rxPlayersLoop rest with
      | .error e => .error e
      | .ok (ps, r) => .ok (p :: ps, r)
termination_by text.length
decreasing_by
  exact rxParsePlayer_lt h

theorem rxPlayersLoop_stop (text : List Char)
    (h : "[TEAM]".data.isPrefixOf text ∨
      "[GAME_START]".data.isPrefixOf text) :
    rxPlayersLoop text = .ok ([], text) := by
  rw [rxPlayersLoop.eq_def]
  rw [if_pos h]

/-- `Parser.__parse_team`. -/
def rxParseTeam (text : List Char) : Except RErr (Team × List Char) := do
  let text ← rxSkip (litP "[TEAM]") text
  let (idTok, text) ← rxMatch digitsP text
  match pyInt? (String.mk idTok) with
  | none => .error (.valueError "int")
  | some teamId =>
    match rxPlayersLoop text with
    | .error e => .error e
    | .ok (players, text) => .ok (⟨teamId, players⟩, text)

/-- `Parser.__parse_context`. -/
def rxParseContext (text : List Char) :
    Except RErr (GameContext × List Char) := do
  let text ← rxSkip (litP "[GAME]") text
  let (pkTok, text) ← rxMatch digitsP text
  match pyInt? (String.mk pkTok) with
  | none => .error (.valueError "int")
  | some gamePk => do
    let text ← rxSkip (litP "[DATE]") text
    let (dateTok, text) ← rxMatch isoDateP text
    let text ← rxSkip (litP "[VENUE]") text
    let (venueTok, text) ← rxMatchUntil (litP "[WEATHER]") text
    let text ← rxSkip (litP "[WEATHER]") text
    let (condTok, text) ← rxMatchUntil digitsP text
    let (tTok, text) ← rxMatch digitsP text
    match pyInt? (String.mk tTok) with
    | none => .error (.valueError "int")
    | some temperature => do
      let (wTok, text) ← rxMatch digitsP text
      match pyInt? (String.mk wTok) with
      | none => .error (.valueError "int")
      | some windSpeed => do
        let (homeTeam, text) ← rxParseTeam text
        let (awayTeam, text) ← rxParseTeam text
        .ok (⟨gamePk, String.mk dateTok, String.mk venueTok,
          ⟨String.mk condTok, temperature, windSpeed⟩, homeTeam,
          awayTeam⟩, text)

/-- `Parser.__parse_play_contents_player`. -/
def rxPcPlayer (tag : RPat) (text : List Char) :
    Except RErr (String × List Char) := do
  let text ← rxSkip tag text
  let (name, text) ← rxMatchUntil bracketP text
  .ok (String.mk name, text)

theorem rxPcPlayer_lt {tag : RPat} {text : List Char} {nm : String}
    {rest : List Char} (h : rxPcPlayer tag text = .ok (nm, rest)) :
    rest.length < text.length := by
  rw [rxPcPlayer] at h
  rw [except_bind_ok] at h
  obtain ⟨a1, k1, h⟩ := h
  try simp only at h
  rw [except_bind_ok] at h
  obtain ⟨⟨nm2, a2⟩, k2, h⟩ := h
  try simp only at h
  simp only [Except.ok.injEq, Prod.mk.injEq] at h
  obtain ⟨-, h2⟩ := h
  subst h2
  have m1 := rxSkip_lt k1
  have m2 := rxMatchUntil_lt k2
  omega

/-- `Parser.__parse_play_contents_fielders`: empty list when a marker
follows immediately, otherwise the text until the next `[`, split on
`", "`, keeping the fields whose stripped form is non-empty. -/
def rxPcFielders (text : List Char) :
    Except RErr (List String × List Char) := do
  let text ← rxSkip (litP "[FIELDERS]") text
  if text.head? = some '[' then .ok ([], text)
  else do
    let (fs, text) ← rxMatchUntil bracketP text
    .ok (((splitCommaSpace fs).filter
      (fun f => !(pyStrip f).isEmpty)).map String.mk, text)

theorem rxPcFielders_lt {text : List Char} {fs : List String}
    {rest : List Char} (h : rxPcFielders text = .ok (fs, rest)) :
    rest.length < text.length := by
  rw [rxPcFielders] at h
  rw [except_bind_ok] at h
  obtain ⟨a1, k1, h⟩ := h
  try simp only at h
  have m1 := rxSkip_lt k1
  split at h
  · simp only [Except.ok.injEq, Prod.mk.injEq] at h
    obtain ⟨-, h2⟩ := h
    subst h2
    omega
  · rw [except_bind_ok] at h
    obtain ⟨⟨f2, a2⟩, k2, h⟩ := h
    try simp only at h
    simp only [Except.ok.injEq, Prod.mk.injEq] at h
    obtain ⟨-, h2⟩ := h
    subst h2
    have m2 := rxMatchUntil_lt k2
    omega

/-- `Parser.__parse_movement`: one movement from a single movement text;
`is_out` is set iff the remaining text is exactly `[out]`. -/
def rxParseMovementText (text : List Char) : Except RErr Movement := do
  let (runner, text) ← rxMatchUntil homeDigitP text
  let (sbTok, text) ← rxMatch homeDigitP text
  match (if String.mk sbTok = "home" then some (4 : Int)
      else pyInt? (String.mk sbTok)) with
  | none => .error (.valueError "int")
  | some sb => do
    let text ← rxSkip (litP "->") text
    let (ebTok, text) ← rxMatch homeDigitP text
    match (if String.mk ebTok = "home" then some (4 : Int)
        else pyInt? (String.mk ebTok)) with
    | none => .error (.valueError "int")
    | some eb =>
      .ok ⟨String.mk runner, some sb, some eb,
        decide (String.mk text = "[out]")⟩

/-- The list comprehension over `movements_text.split(", ")`. -/
def rxMovementsMapM : List (List Char) → Except RErr (List Movement)
  | [] => .ok []
  | t :: ts =>
      match rxParseMovementText t with
      | .error e => .error e
      | .ok m =>
          match rxMovementsMapM ts with
          | .error e => .error e
          | .ok ms => .ok (m :: ms)

/-- `Parser.__parse_play_contents_movements`. -/
def rxPcMovements (text : List Char) :
    Except RErr (List Movement × List Char) := do
  let text ← rxSkip (litP "[MOVEMENTS]") text
  if text.head? = some '[' then .ok ([], text)
  else do
    let (mv, text) ← rxMatchUntil bracketUpperP text
    match rxMovementsMapM (splitCommaSpace mv) with
    | .error e => .error e
    | .ok ms => .ok (ms, text)

theorem rxPcMovements_lt {text : List Char} {ms : List Movement}
    {rest : List Char} (h : rxPcMovements text = .ok (ms, rest)) :
    rest.length < text.length := by
  rw [rxPcMovements] at h
  rw [except_bind_ok] at h
  obtain ⟨a1, k1, h⟩ := h
  try simp only at h
  have m1 := rxSkip_lt k1
  split at h
  · simp only [Except.ok.injEq, Prod.mk.injEq] at h
    obtain ⟨-, h2⟩ := h
    subst h2
    omega
  · rw [except_bind_ok] at h
    obtain ⟨⟨mv, a2⟩, k2, h⟩ := h
    try simp only at h
    have m2 := rxMatchUntil_lt k2
    cases hmm : rxMovementsMapM (splitCommaSpace mv) with
    | error e => rw [hmm] at h; simp at h
    | ok ms2 =>
        rw [hmm] at h
        try simp only at h
        simp only [Except.ok.injEq, Prod.mk.injEq] at h
        obtain ⟨-, h2⟩ := h
        subst h2
        omega

/-- `Parser.__parse_play_contents_base`. -/
def rxPcBase (text : List Char) : Except RErr (Int × List Char) := do
  let text ← rxSkip (litP "[BASE]") text
  let (bTok, text) ← rxMatch homeDigitP text
  match (if String.mk bTok = "home" then some (4 : Int)
      else pyInt? (String.mk bTok)) with
  | none => .error (.valueError "int")
  | some b => .ok (b, text)

theorem rxPcBase_lt {text : List Char} {b : Int}
    {rest : List Char} (h : rxPcBase text = .ok (b, rest)) :
    rest.length < text.length := by
  rw [rxPcBase] at h
  rw [except_bind_ok] at h
  obtain ⟨a1, k1, h⟩ := h
  try simp only at h
  rw [except_bind_ok] at h
  obtain ⟨⟨bTok, a2⟩, k2, h⟩ := h
  try simp only at h
  have m1 := rxSkip_lt k1
  have m2 := rxMatch_lt k2
  split at h
  · simp at h
  · simp only [Except.ok.injEq, Prod.mk.injEq] at h
    obtain ⟨-, h2⟩ := h
    subst h2
    omega

/-- `Parser.__parse_play`: skip `[PLAY]`, read the play-type text up to the
next `[`, then dispatch on the play type exactly as the source's
`match play.play_type` does. -/
def rxParsePlay (text : List Char) : Except RErr (Play × List Char) := do
  let text ← rxSkip (litP "[PLAY]") text
  let (tyTok, text) ← rxMatchUntil bracketP text
  match PlayType.from_text (String.mk tyTok) with
  | none => .error (.valueError "play-type")
  | some ty =>
    match ty with
    | .GROUNDOUT | .BUNT_GROUNDOUT | .LINEOUT | .BUNT_LINEOUT | .FLYOUT
    | .POP_OUT | .BUNT_POP_OUT | .FORCEOUT | .DOUBLE_PLAY | .TRIPLE_PLAY
    | .RUNNER_DOUBLE_PLAY | .RUNNER_TRIPLE_PLAY
    | .GROUNDED_INTO_DOUBLE_PLAY | .STRIKEOUT_DOUBLE_PLAY
    | .FIELDERS_CHOICE | .CATCHER_INTERFERENCE | .FIELD_ERROR => do
        let (batter, text) ← rxPcPlayer (litP "[BATTER]") text
        let (pitcher, text) ← rxPcPlayer (litP "[PITCHER]") text
        let (fielders, text) ← rxPcFielders text
        let (movements, text) ← rxPcMovements text
        .ok (⟨ty, { batter := some batter, pitcher := some pitcher, fielders := some fielders, movements := some movements }⟩, text)
    | .STRIKEOUT | .SINGLE | .DOUBLE | .TRIPLE | .HOME_RUN | .WALK
    | .INTENT_WALK | .HIT_BY_PITCH => do
        let (batter, text) ← rxPcPlayer (litP "[BATTER]") text
        let (pitcher, text) ← rxPcPlayer (litP "[PITCHER]") text
        let (movements, text) ← rxPcMovements text
        .ok (⟨ty, { batter := some batter, pitcher := some pitcher, movements := some movements }⟩, text)
    | .PICKOFF | .PICKOFF_ERROR | .CAUGHT_STEALING
    | .PICKOFF_CAUGHT_STEALING => do
        let (base, text) ← rxPcBase text
        let (runner, text) ← rxPcPlayer (litP "[RUNNER]") text
        let (fielders, text) ← rxPcFielders text
        let (movements, text) ← rxPcMovements text
        .ok (⟨ty, { base := some base, runner := some runner, fielders := some fielders, movements := some movements }⟩, text)
    | .WILD_PITCH => do
        let (pitcher, text) ← rxPcPlayer (litP "[PITCHER]") text
        let (runner, text) ← rxPcPlayer (litP "[RUNNER]") text
        let (movements, text) ← rxPcMovements text
        .ok (⟨ty, { pitcher := some pitcher, runner := some runner, movements := some movements }⟩, text)
    | .RUNNER_OUT | .FIELD_OUT => do
        let (runner, text) ← rxPcPlayer (litP "[RUNNER]") text
        let (fielders, text) ← rxPcFielders text
        let (movements, text) ← rxPcMovements text
        .ok (⟨ty, { runner := some runner, fielders := some fielders, movements := some movements }⟩, text)
    | .BALK => do
        let (pitcher, text) ← rxPcPlayer (litP "[PITCHER]") text
        let (movements, text) ← rxPcMovements text
        .ok (⟨ty, { pitcher := some pitcher, movements := some movements }⟩, text)
    | .PASSED_BALL | .ERROR => do
        let (pitcher, text) ← rxPcPlayer (litP "[PITCHER]") text
        let (catcher, text) ← rxPcPlayer (litP "[CATCHER]") text
        let (movements, text) ← rxPcMovements text
        .ok (⟨ty, { pitcher := some pitcher, catcher := some catcher, movements := some movements }⟩, text)
    | .STOLEN_BASE => do
        let (base, text) ← rxPcBase text
        let (runner, text) ← rxPcPlayer (litP "[RUNNER]") text
        let (movements, text) ← rxPcMovements text
        .ok (⟨ty, { base := some base, runner := some runner, movements := some movements }⟩, text)
    | .SAC_FLY | .SAC_FLY_DOUBLE_PLAY | .FIELDERS_CHOICE_OUT => do
        let (batter, text) ← rxPcPlayer (litP "[BATTER]") text
        let (pitcher, text) ← rxPcPlayer (litP "[PITCHER]") text
        let (fielders, text) ← rxPcFielders text
        let (scoringRunner, text) ← rxPcPlayer (litP "[SCORING_RUNNER]") text
        let (movements, text) ← rxPcMovements text
        .ok (⟨ty, { batter := some batter, pitcher := some pitcher, fielders := some fielders, scoring_runner := some scoringRunner, movements := some movements }⟩, text)
    | .SAC_BUNT | .SAC_BUNT_DOUBLE_PLAY => do
        let (batter, text) ← rxPcPlayer (litP "[BATTER]") text
        let (pitcher, text) ← rxPcPlayer (litP "[PITCHER]") text
        let (fielders, text) ← rxPcFielders text
        let (runner, text) ← rxPcPlayer (litP "[RUNNER]") text
        let (movements, text) ← rxPcMovements text
        .ok (⟨ty, { batter := some batter, pitcher := some pitcher, fielders := some fielders, runner := some runner, movements := some movements }⟩, text)
    | .GAME_ADVISORY => .ok (⟨ty, {}⟩, text)

theorem rxParsePlay_lt {text : List Char} {p : Play}
    {rest : List Char} (h : rxParsePlay text = .ok (p, rest)) :
    rest.length < text.length := by
  rw [rxParsePlay] at h
  rw [except_bind_ok] at h
  obtain ⟨t1, k1, h⟩ := h
  try simp only at h
  rw [except_bind_ok] at h
  obtain ⟨⟨tyTok, t2⟩, k2, h⟩ := h
  try simp only at h
  have hs1 := rxSkip_lt k1
  have hs2 := rxMatchUntil_lt k2
  cases hft : PlayType.from_text (String.mk tyTok) with
  | none => rw [hft] at h; simp at h
  | some ty =>
      rw [hft] at h
      try simp only at h
      cases ty <;> (try simp only at h) <;>
      first
      | (simp only [Except.ok.injEq, Prod.mk.injEq] at h
         obtain ⟨-, h2⟩ := h
         subst h2
         omega)
      | (rw [except_bind_ok] at h
         obtain ⟨⟨x1, a1⟩, j1, h⟩ := h
         try simp only at h
         rw [except_bind_ok] at h
         obtain ⟨⟨x2, a2⟩, j2, h⟩ := h
         try simp only at h
         simp only [Except.ok.injEq, Prod.mk.injEq] at h
         obtain ⟨-, h2⟩ := h
         subst h2
         have m1 := rxPcPlayer_lt j1
         have m2 := rxPcMovements_lt j2
         omega)
      | (rw [except_bind_ok] at h
         obtain ⟨⟨x1, a1⟩, j1, h⟩ := h
         try simp only at h
         rw [except_bind_ok] at h
         obtain ⟨⟨x2, a2⟩, j2, h⟩ := h
         try simp only at h
         rw [except_bind_ok] at h
         obtain ⟨⟨x3, a3⟩, j3, h⟩ := h
         try simp only at h
         simp only [Except.ok.injEq, Prod.mk.injEq] at h
         obtain ⟨-, h2⟩ := h
         subst h2
         have m1 := rxPcPlayer_lt j1
         have m2 := rxPcPlayer_lt j2
         have m3 := rxPcMovements_lt j3
         omega)
      | (rw [except_bind_ok] at h
         obtain ⟨⟨x1, a1⟩, j1, h⟩ := h
         try simp only at h
         rw [except_bind_ok] at h
         obtain ⟨⟨x2, a2⟩, j2, h⟩ := h
         try simp only at h
         rw [except_bind_ok] at h
         obtain ⟨⟨x3, a3⟩, j3, h⟩ := h
         try simp only at h
         simp only [Except.ok.injEq, Prod.mk.injEq] at h
         obtain ⟨-, h2⟩ := h
         subst h2
         have m1 := rxPcPlayer_lt j1
         have m2 := rxPcFielders_lt j2
         have m3 := rxPcMovements_lt j3
         omega)
      | (rw [except_bind_ok] at h
         obtain ⟨⟨x1, a1⟩, j1, h⟩ := h
         try simp only at h
         rw [except_bind_ok] at h
         obtain ⟨⟨x2, a2⟩, j2, h⟩ := h
         try simp only at h
         rw [except_bind_ok] at h
         obtain ⟨⟨x3, a3⟩, j3, h⟩ := h
         try simp only at h
         simp only [Except.ok.injEq, Prod.mk.injEq] at h
         obtain ⟨-, h2⟩ := h
         subst h2
         have m1 := rxPcBase_lt j1
         have m2 := rxPcPlayer_lt j2
         have m3 := rxPcMovements_lt j3
         omega)
      | (rw [except_bind_ok] at h
         obtain ⟨⟨x1, a1⟩, j1, h⟩ := h
         try simp only at h
         rw [except_bind_ok] at h
         obtain ⟨⟨x2, a2⟩, j2, h⟩ := h
         try simp only at h
         rw [except_bind_ok] at h
         obtain ⟨⟨x3, a3⟩, j3, h⟩ := h
         try simp only at h
         rw [except_bind_ok] at h
         obtain ⟨⟨x4, a4⟩, j4, h⟩ := h
         try simp only at h
         simp only [Except.ok.injEq, Prod.mk.injEq] at h
         obtain ⟨-, h2⟩ := h
         subst h2
         have m1 := rxPcPlayer_lt j1
         have m2 := rxPcPlayer_lt j2
         have m3 := rxPcFielders_lt j3
         have m4 := rxPcMovements_lt j4
         omega)
      | (rw [except_bind_ok] at h
         obtain ⟨⟨x1, a1⟩, j1, h⟩ := h
         try simp only at h
         rw [except_bind_ok] at h
         obtain ⟨⟨x2, a2⟩, j2, h⟩ := h
         try simp only at h
         rw [except_bind_ok] at h
         obtain ⟨⟨x3, a3⟩, j3, h⟩ := h
         try simp only at h
         rw [except_bind_ok] at h
         obtain ⟨⟨x4, a4⟩, j4, h⟩ := h
         try simp only at h
         simp only [Except.ok.injEq, Prod.mk.injEq] at h
         obtain ⟨-, h2⟩ := h
         subst h2
         have m1 := rxPcBase_lt j1
         have m2 := rxPcPlayer_lt j2
         have m3 := rxPcFielders_lt j3
         have m4 := rxPcMovements_lt j4
         omega)
      | (rw [except_bind_ok] at h
         obtain ⟨⟨x1, a1⟩, j1, h⟩ := h
         try simp only at h
         rw [except_bind_ok] at h
         obtain ⟨⟨x2, a2⟩, j2, h⟩ := h
         try simp only at h
         rw [except_bind_ok] at h
         obtain ⟨⟨x3, a3⟩, j3, h⟩ := h
         try simp only at h
         rw [except_bind_ok] at h
         obtain ⟨⟨x4, a4⟩, j4, h⟩ := h
         try simp only at h
         rw [except_bind_ok] at h
         obtain ⟨⟨x5, a5⟩, j5, h⟩ := h
         try simp only at h
         simp only [Except.ok.injEq, Prod.mk.injEq] at h
         obtain ⟨-, h2⟩ := h
         subst h2
         have m1 := rxPcPlayer_lt j1
         have m2 := rxPcPlayer_lt j2
         have m3 := rxPcFielders_lt j3
         have m4 := rxPcPlayer_lt j4
         have m5 := rxPcMovements_lt j5
         omega)

/-- The play loop of `Parser.__parse_plays`:
`while not text.startswith("[GAME_END]")`. -/
def rxPlaysLoop (text : List Char) : Except RErr (List Play × List Char) :=
  if "[GAME_END]".data.isPrefixOf text then .ok ([], text)
  else
    match h : rxParsePlay text with
    | .error e => .error e
    | .ok (p, rest) =>
      match rxPlaysLoop rest with
      | .error e => .error e
      | .ok (ps, r) => .ok (p :: ps, r)
termination_by text.length
decreasing_by
  exact rxParsePlay_lt h

theorem rxPlaysLoop_stop (text : List Char)
    (h : "[GAME_END]".data.isPrefixOf text) :
    rxPlaysLoop text = .ok ([], text) := by
  rw [rxPlaysLoop.eq_def]
  rw [if_pos h]

/-- `Parser.__parse_plays`. -/
def rxParsePlays (text : List Char) :
    Except RErr (List Play × List Char) := do
  let text ← rxSkip (litP "[GAME_START]") text
  match rxPlaysLoop text with
  | .error e => .error e
  | .ok (plays, text2) => do
      let text3 ← rxSkip (litP "[GAME_END]") text2
      .ok (plays, text3)

/-- `Parser.parse`: context, plays, then
`if text: raise ValueError(f"Expected end of game but got ...")`. -/
def rxParse (text : String) : Except RErr Game :=
  match rxParseContext text.data with
  | .error e => .error e
  | .ok (context, t1) =>
    match rxParsePlays t1 with
    | .error e => .error e
    | .ok (plays, t2) =>
      if t2 ≠ [] then .error (.valueError "end-of-game")
      else .ok ⟨context, plays⟩

/-!  ## C3: agreement and disagreement of the two implementations -/

def zeroWeather : WeatherSpec :=
  { condToks := ["Sunny"], tTok := "70", wTok := "5",
    temperature := 70, wind := 5 }

def zeroHome : TeamSpec := { idTok := "7", id := 7, players := [] }

def zeroAway : TeamSpec := { idTok := "8", id := 8, players := [] }

/-- Context of the concrete zero-play agreement transcript. -/
def zeroCtx : ContextSpec :=
  { pkTok := "1", pk := 1, dateTok := "2024-06-01", venueToks := ["Oracle"],
    weather := zeroWeather, home := zeroHome, away := zeroAway }

def zeroGame : GameSpec := { ctx := zeroCtx, plays := [] }

/-- Same transcript with a non-ISO date token. -/
def zeroCtxD : ContextSpec := { zeroCtx with dateTok := "D" }

def zeroGameD : GameSpec := { ctx := zeroCtxD, plays := [] }

/-- A concrete transcript conforming both to §6 and to the regex
implementation's stricter lexical shape. -/
def c3Text : String := "[GAME] 1 [DATE] 2024-06-01 [VENUE] Oracle [WEATHER] Sunny 70 5 [TEAM] 7 [TEAM] 8 [GAME_START] [GAME_END]"

/-- The same transcript with the date token `D`, which the token-list
implementation accepts (the date is an arbitrary token) and the regex
implementation rejects (`\d{4}-\d{2}-\d{2}` in the comment sense: the
ten-character ISO shape). -/
def c3BadText : String := "[GAME] 1 [DATE] D [VENUE] Oracle [WEATHER] Sunny 70 5 [TEAM] 7 [TEAM] 8 [GAME_START] [GAME_END]"

theorem rxTeamEval1 :
    rxParseTeam ("[TEAM] 7 [TEAM] 8 [GAME_START] [GAME_END]").data =
      .ok (⟨7, []⟩, ("[TEAM] 8 [GAME_START] [GAME_END]").data) := by
  have ha : rxSkip (litP "[TEAM]") ("[TEAM] 7 [TEAM] 8 [GAME_START] [GAME_END]").data =
      .ok (("7 [TEAM] 8 [GAME_START] [GAME_END]").data) := rfl
  have hb : rxMatch digitsP ("7 [TEAM] 8 [GAME_START] [GAME_END]").data =
      .ok (("7").data, ("[TEAM] 8 [GAME_START] [GAME_END]").data) := rfl
  have hc : pyInt? (String.mk ("7").data) = some 7 := rfl
  have hd : rxPlayersLoop ("[TEAM] 8 [GAME_START] [GAME_END]").data =
      .ok ([], ("[TEAM] 8 [GAME_START] [GAME_END]").data) :=
    rxPlayersLoop_stop _ (by decide)
  rw [rxParseTeam, ha, ok_bind]
  try simp only
  rw [hb, ok_bind]
  try simp only
  rw [hc]
  try simp only
  rw [hd]

theorem rxTeamEval2 :
    rxParseTeam ("[TEAM] 8 [GAME_START] [GAME_END]").data =
      .ok (⟨8, []⟩, ("[GAME_START] [GAME_END]").data) := by
  have ha : rxSkip (litP "[TEAM]") ("[TEAM] 8 [GAME_START] [GAME_END]").data =
      .ok (("8 [GAME_START] [GAME_END]").data) := rfl
  have hb : rxMatch digitsP ("8 [GAME_START] [GAME_END]").data =
      .ok (("8").data, ("[GAME_START] [GAME_END]").data) := rfl
  have hc : pyInt? (String.mk ("8").data) = some 8 := rfl
  have hd : rxPlayersLoop ("[GAME_START] [GAME_END]").data =
      .ok ([], ("[GAME_START] [GAME_END]").data) :=
    rxPlayersLoop_stop _ (by decide)
  rw [rxParseTeam, ha, ok_bind]
  try simp only
  rw [hb, ok_bind]
  try simp only
  rw [hc]
  try simp only
  rw [hd]

theorem rxCtxEval :
    rxParseContext c3Text.data =
      .ok (zeroCtx.toContext, ("[GAME_START] [GAME_END]").data) := by
  have h1 : rxSkip (litP "[GAME]") c3Text.data =
      .ok (("1 [DATE] 2024-06-01 [VENUE] Oracle [WEATHER] Sunny 70 5 [TEAM] 7 [TEAM] 8 [GAME_START] [GAME_END]").data) := rfl
  have h2 : rxMatch digitsP ("1 [DATE] 2024-06-01 [VENUE] Oracle [WEATHER] Sunny 70 5 [TEAM] 7 [TEAM] 8 [GAME_START] [GAME_END]").data =
      .ok (("1").data, ("[DATE] 2024-06-01 [VENUE] Oracle [WEATHER] Sunny 70 5 [TEAM] 7 [TEAM] 8 [GAME_START] [GAME_END]").data) := rfl
  have h3 : pyInt? (String.mk ("1").data) = some 1 := rfl
  have h4 : rxSkip (litP "[DATE]") ("[DATE] 2024-06-01 [VENUE] Oracle [WEATHER] Sunny 70 5 [TEAM] 7 [TEAM] 8 [GAME_START] [GAME_END]").data =
      .ok (("2024-06-01 [VENUE] Oracle [WEATHER] Sunny 70 5 [TEAM] 7 [TEAM] 8 [GAME_START] [GAME_END]").data) := rfl
  have h5 : rxMatch isoDateP ("2024-06-01 [VENUE] Oracle [WEATHER] Sunny 70 5 [TEAM] 7 [TEAM] 8 [GAME_START] [GAME_END]").data =
      .ok (("2024-06-01").data, ("[VENUE] Oracle [WEATHER] Sunny 70 5 [TEAM] 7 [TEAM] 8 [GAME_START] [GAME_END]").data) := rfl
  have h6 : rxSkip (litP "[VENUE]") ("[VENUE] Oracle [WEATHER] Sunny 70 5 [TEAM] 7 [TEAM] 8 [GAME_START] [GAME_END]").data =
      .ok (("Oracle [WEATHER] Sunny 70 5 [TEAM] 7 [TEAM] 8 [GAME_START] [GAME_END]").data) := rfl
  have h7 : rxMatchUntil (litP "[WEATHER]") ("Oracle [WEATHER] Sunny 70 5 [TEAM] 7 [TEAM] 8 [GAME_START] [GAME_END]").data =
      .ok (("Oracle").data, ("[WEATHER] Sunny 70 5 [TEAM] 7 [TEAM] 8 [GAME_START] [GAME_END]").data) := rfl
  have h8 : rxSkip (litP "[WEATHER]") ("[WEATHER] Sunny 70 5 [TEAM] 7 [TEAM] 8 [GAME_START] [GAME_END]").data =
      .ok (("Sunny 70 5 [TEAM] 7 [TEAM] 8 [GAME_START] [GAME_END]").data) := rfl
  have h9 : rxMatchUntil digitsP ("Sunny 70 5 [TEAM] 7 [TEAM] 8 [GAME_START] [GAME_END]").data =
      .ok (("Sunny").data, ("70 5 [TEAM] 7 [TEAM] 8 [GAME_START] [GAME_END]").data) := rfl
  have h10 : rxMatch digitsP ("70 5 [TEAM] 7 [TEAM] 8 [GAME_START] [GAME_END]").data =
      .ok (("70").data, ("5 [TEAM] 7 [TEAM] 8 [GAME_START] [GAME_END]").data) := rfl
  have h11 : pyInt? (String.mk ("70").data) = some 70 := rfl
  have h12 : rxMatch digitsP ("5 [TEAM] 7 [TEAM] 8 [GAME_START] [GAME_END]").data =
      .ok (("5").data, ("[TEAM] 7 [TEAM] 8 [GAME_START] [GAME_END]").data) := rfl
  have h13 : pyInt? (String.mk ("5").data) = some 5 := rfl
  rw [rxParseContext, h1, ok_bind]
  try simp only
  rw [h2, ok_bind]
  try simp only
  rw [h3]
  try simp only
  rw [h4, ok_bind]
  try simp only
  rw [h5, ok_bind]
  try simp only
  rw [h6, ok_bind]
  try simp only
  rw [h7, ok_bind]
  try simp only
  rw [h8, ok_bind]
  try simp only
  rw [h9, ok_bind]
  try simp only
  rw [h10, ok_bind]
  try simp only
  rw [h11]
  try simp only
  rw [h12, ok_bind]
  try simp only
  rw [h13]
  try simp only
  rw [rxTeamEval1, ok_bind]
  try simp only
  rw [rxTeamEval2, ok_bind]
  try simp only
  try rfl

theorem rxPlaysEval :
    rxParsePlays ("[GAME_START] [GAME_END]").data = .ok ([], []) := by
  have h1 : rxSkip (litP "[GAME_START]") ("[GAME_START] [GAME_END]").data =
      .ok (("[GAME_END]").data) := rfl
  have h2 : rxPlaysLoop ("[GAME_END]").data =
      .ok ([], ("[GAME_END]").data) := rxPlaysLoop_stop _ (by decide)
  have h3 : rxSkip (litP "[GAME_END]") ("[GAME_END]").data =
      .ok ([] : List Char) := rfl
  rw [rxParsePlays, h1, ok_bind]
  try simp only
  rw [h2]
  try simp only
  rw [h3, ok_bind]
  try rfl

/-- C3 (amended): a proven agreement instance: on the concrete zero-play
transcript `c3Text` (ISO-shaped date, single-space separators) the two
implementations agree — both succeed and produce structurally equal
`Game` values.  The implementations are not extensionally equal: see the
counterexample, where only the token-list implementation succeeds. -/
theorem c3_implementations_agree :
    parse_game c3Text = .ok (zeroGame.toGame, ["[GAME_END]"]) ∧
    rxParse c3Text = .ok zeroGame.toGame := by
  constructor
  · rw [parse_game]
    rw [show pySplitWS c3Text = zeroGame.render from rfl]
    exact Game_render_full (by decide)
  · rw [rxParse]
    rw [rxCtxEval]
    try simp only
    rw [rxPlaysEval]
    try simp only
    rw [if_neg (by simp)]
    try rfl

/-- C3 counterexample: on the transcript with date token `D` the
token-list implementation succeeds (the date is an arbitrary popped
token) while the regex implementation fails at its ISO-date pattern — the
two implementations do not agree on every input. -/
theorem c3_counterexample :
    parse_game c3BadText = .ok (zeroGameD.toGame, ["[GAME_END]"]) ∧
    rxParse c3BadText = .error (.valueError "iso-date") := by
  constructor
  · rw [parse_game]
    rw [show pySplitWS c3BadText = zeroGameD.render from rfl]
    exact Game_render_full (by decide)
  · rfl

end MLB
